import Mathlib

/-!
Verification of the minimal-compiler-frontend repository.

Shallow embedding notes.

NFA part (src/regex/graph.py, src/regex/regex_nfa.py):
Python `State` objects are identity-bearing; we model them as natural
numbers drawn from an arena, so a `Path` is a triple of begin id, end id
and a `Char` label.  The sentinel `epsilon` is the character 'ε', exactly
as in the source (`epsilon = "ε"` is a one-character string and
`step_by` compares `path.label == letter` by plain equality).

`Machine.e_closure` in the source is `recur_forwards`: repeatedly add the
one-step ε successors of the whole frontier until nothing new appears;
the recursion terminates because the frontier can only grow inside the
finite set of ε-path endpoints.  We embed it with explicit fuel
`(epsEnds P).card + 1`, which the lemma `epsStep_eClosAux_subset` below
proves sufficient to reach the fixed point, so the fueled function
computes the very set the unbounded Python recursion returns.
On an EMPTY input set the Python code raises TypeError (`reduce` over an
empty sequence has no initial value); `step_by` turns that into
`NotMatchException`, and `match` turns it into a reset plus `False`.
We model the raising `e_closure` as an `Option`-valued function that is
`none` exactly on the empty set.
-/

/-- Label sentinel for ε transitions, `epsilon = "ε"` in graph.py. -/
def epsilon : Char := 'ε'

/-- Predicate `is_epsilon(label)` from graph.py. -/
def is_epsilon (label : Char) : Bool := label == epsilon

/-- A `Path` from graph.py: begin state, end state, label.  The Python
`end` attribute is called `dest` here because `end` is reserved in Lean. -/
structure PathT where
  begin : Nat
  dest : Nat
  label : Char
deriving DecidableEq, Repr

/-- A `Graph` from graph.py: a list of paths plus start and finish state. -/
structure GraphT where
  paths : List PathT
  start : Nat
  finish : Nat
deriving DecidableEq, Repr

/-- Method `Graph.get_states`: every state appearing as an endpoint. -/
def GraphT.get_states (g : GraphT) : Finset Nat :=
  (g.paths.map PathT.begin).toFinset ∪ (g.paths.map PathT.dest).toFinset

/-- Method `Graph.alter_init_state`: rewire every path whose begin is the
current start to the new state, ELSE (the source's `elif`) rewire its end
when that is the current start; finally replace `start`. -/
def GraphT.alter_init_state (g : GraphT) (s : Nat) : GraphT :=
  { paths := g.paths.map (fun p =>
      if p.begin = g.start then { p with begin := s }
      else if p.dest = g.start then { p with dest := s }
      else p),
    start := s,
    finish := g.finish }

/-- Constructor `basis(letter)` from regex_nfa.py; `n1`, `n2` are the ids
of the two freshly allocated `State` objects. -/
def basis (letter : Char) (n1 n2 : Nat) : GraphT :=
  { paths := [⟨n1, n2, letter⟩], start := n1, finish := n2 }

/-- Constructor `induct_or(former, later)` from regex_nfa.py with fresh
state ids `n1` (new start) and `n2` (new finish). -/
def induct_or (former later : GraphT) (n1 n2 : Nat) : GraphT :=
  { paths := former.paths ++ later.paths ++
      [⟨n1, former.start, epsilon⟩,
       ⟨n1, later.start, epsilon⟩,
       ⟨former.finish, n2, epsilon⟩,
       ⟨later.finish, n2, epsilon⟩],
    start := n1,
    finish := n2 }

/-- Constructor `induct_cat(former, later)` from regex_nfa.py: rewire the
later graph's start onto the former's finish; no new states. -/
def induct_cat (former later : GraphT) : GraphT :=
  let later' := later.alter_init_state former.finish
  { paths := former.paths ++ later'.paths,
    start := former.start,
    finish := later'.finish }

/-- Constructor `induct_star(graph)` from regex_nfa.py with fresh state
ids `n1` (new start) and `n2` (new finish). -/
def induct_star (g : GraphT) (n1 n2 : Nat) : GraphT :=
  { paths := g.paths ++
      [⟨n1, g.start, epsilon⟩,
       ⟨n1, n2, epsilon⟩,
       ⟨g.finish, n2, epsilon⟩,
       ⟨g.finish, g.start, epsilon⟩],
    start := n1,
    finish := n2 }

/-- Endpoints of ε-labeled paths; the only states an ε-closure iteration
can ever add. -/
def epsEnds (P : List PathT) : Finset Nat :=
  ((P.filter (fun p => is_epsilon p.label)).map PathT.dest).toFinset

/-- One sweep of `forwards` inside `Machine.e_closure`: all states
reached from the set `t` through a single ε-labeled path. -/
def epsStep (P : List PathT) (t : Finset Nat) : Finset Nat :=
  ((P.filter (fun p => decide (p.begin ∈ t) && is_epsilon p.label)).map
    PathT.dest).toFinset

/-- Fueled embedding of `recur_forwards` inside `Machine.e_closure`:
if one sweep adds nothing, stop; otherwise widen and recurse. -/
def eClosAux (P : List PathT) : Nat → Finset Nat → Finset Nat
  | 0, t => t
  | n + 1, t =>
    if epsStep P t ⊆ t then t else eClosAux P n (t ∪ epsStep P t)

/-- Fuel sufficient for `eClosAux` to reach its fixed point (each
non-final sweep adds at least one member of `epsEnds P`). -/
def fuelOf (P : List PathT) : Nat := (epsEnds P).card + 1

/-- Method `Machine.e_closure`.  On the empty set the source raises
TypeError (empty `reduce`), modelled as `none`. -/
def e_closure (P : List PathT) (S : Finset Nat) : Option (Finset Nat) :=
  if S = ∅ then none else some (eClosAux P (fuelOf P) S)

/-- The set comprehension inside `Machine.step_by`: ends of paths leaving
the frontier `cur` whose label equals the input letter exactly. -/
def letterTargets (P : List PathT) (cur : Finset Nat) (c : Char) : Finset Nat :=
  ((P.filter (fun p => decide (p.begin ∈ cur) && (p.label == c))).map
    PathT.dest).toFinset

/-- Method `Machine.step_by`: `none` models the NotMatchException raised
when no frontier state has an edge labeled with the letter. -/
def step_by (P : List PathT) (cur : Finset Nat) (c : Char) : Option (Finset Nat) :=
  e_closure P (letterTargets P cur c)

/-- The letter loop of `Machine.match`: step through the stream, aborting
as the exception would. -/
def runSteps (P : List PathT) : Finset Nat → List Char → Option (Finset Nat)
  | cur, [] => some cur
  | cur, c :: rest =>
    match step_by P cur c with
    | none => none
    | some cur' => runSteps P cur' rest

/-- A `Machine` from graph.py: a graph plus the mutable frontier. -/
structure MachineT where
  paths : List PathT
  start : Nat
  finish : Nat
  current : Finset Nat
deriving DecidableEq

/-- The frontier `e_closure({start})` used both by `Machine.__init__` and
by every return branch of `Machine.match`. -/
def resetClos (P : List PathT) (s : Nat) : Finset Nat :=
  eClosAux P (fuelOf P) {s}

/-- The `Machine(graph)` constructor: frontier starts at
`e_closure({start})`. -/
def mkMachine (g : GraphT) : MachineT :=
  { paths := g.paths, start := g.start, finish := g.finish,
    current := resetClos g.paths g.start }

/-- Method `Machine.match`: run the letters; on NotMatchException reset
and answer `false`; otherwise reset and answer whether the finish state
is in the final frontier.  Returns the result together with the machine
as it is left behind. -/
def matchM (M : MachineT) (s : List Char) : Bool × MachineT :=
  match runSteps M.paths M.current s with
  | none => (false, { M with current := resetClos M.paths M.start })
  | some cur =>
    (decide (M.finish ∈ cur), { M with current := resetClos M.paths M.start })

/-- Graphs produced by the Thompson constructors of regex_nfa.py, with
the state arena made explicit: `Produced lo hi G` means `G` was built
with all of its state ids allocated inside `[lo, hi)`, consecutive
constructor calls drawing fresh ids past the ids used so far, exactly as
`State()` allocation produces distinct identities in the source. -/
inductive Produced : Nat → Nat → GraphT → Prop
  | basis (c : Char) (lo : Nat) : Produced lo (lo + 2) (basis c lo (lo + 1))
  | or {lo m k : Nat} {g1 g2 : GraphT} :
      Produced lo m g1 → Produced m k g2 →
      Produced lo (k + 2) (induct_or g1 g2 k (k + 1))
  | cat {lo m k : Nat} {g1 g2 : GraphT} :
      Produced lo m g1 → Produced m k g2 →
      Produced lo k (induct_cat g1 g2)
  | star {lo m : Nat} {g : GraphT} :
      Produced lo m g → Produced lo (m + 2) (induct_star g m (m + 1))

/-- Single ε edge relation of a path list. -/
def epsEdge (P : List PathT) (a b : Nat) : Prop :=
  ∃ p ∈ P, p.begin = a ∧ p.dest = b ∧ p.label = epsilon

/-- Reachability through ε edges (reflexive-transitive closure). -/
def Reach (P : List PathT) : Nat → Nat → Prop :=
  Relation.ReflTransGen (epsEdge P)

/-- A frontier closed under ε reachability. -/
def EpsClosed (P : List PathT) (t : Finset Nat) : Prop :=
  ∀ x ∈ t, ∀ y, Reach P x y → y ∈ t

/-!
LR(1) table generator (src/regex/parsing_table.py and src/parser.py).

The two Python modules are the same algorithm written twice, once with
one-character string symbols (the regex grammar) and once with full
string symbols (the demo if/else grammar).  We embed the algorithm once,
parameterised by the handful of module-level constants that differ, and
instantiate it twice.  Python `set`s of items are embedded as
duplicate-free lists (insertion order); what the claims consume —
value equality of item sets, recorded labels, emitted table rows —
does not depend on set iteration order except where the source itself
iterates a set to write table cells, which we note at the relevant
claim.  The unbounded worklist loops are embedded with generous fuel;
each loop either drains its queue (and then extra fuel is never
consumed) or appends genuinely new elements drawn from a finite space,
so the fuels below are never exhausted on the inputs considered.
-/

/-- Deduplicating union in first-insertion order; embeds Python
`set.union` for first sets kept as ordered duplicate-free lists. -/
def unionL {α : Type} [DecidableEq α] (xs ys : List α) : List α :=
  ys.foldl (fun a y => if y ∈ a then a else a ++ [y]) xs

/-- The module-level constants an LR table module is built from:
grammar, symbol classes, and the pieces of `first`/`produce_epsilon`
whose Python source differs between the two modules. -/
structure LRSpec (α : Type) where
  grammar : List (α × List α)
  terminals : List α
  n_terminals : List α
  termFirst : α → List α
  produce_eps : α → Bool
  epsFirst : List α
  startSym : α
  startBody : List α
  followInit : α

/-- Combined symbol alphabet `all_symbols = terminals + n_terminals`. -/
def LRSpec.all_symbols {α : Type} (sp : LRSpec α) : List α :=
  sp.terminals ++ sp.n_terminals

/-- Recursion bound for `first`: nesting of non-terminal expansions
never exceeds the number of productions (the source's same-symbol guard
cuts self recursion; neither grammar has mutual left recursion). -/
def firstFuel {α : Type} (sp : LRSpec α) : Nat := sp.grammar.length + 2

/-- Function `first(symbol)`: for a terminal, `set(symbol)`
(`termFirst`); for an ε-producing head, the characters of the epsilon
literal; for a non-terminal, the guarded left-scan over each of its
bodies, ORing in `first` of each leading symbol while the epsilon flag
survives, skipping self references. -/
def lrFirst {α : Type} [DecidableEq α] (sp : LRSpec α) : Nat → α → List α
  | 0, _ => []
  | n + 1, sym =>
    if sym ∈ sp.terminals then sp.termFirst sym
    else if sp.produce_eps sym then sp.epsFirst
    else if sym ∈ sp.n_terminals then
      sp.grammar.foldl (fun acc pr =>
        if pr.1 = sym then
          (pr.2.foldl (fun (st : List α × Bool) y =>
            if st.2 then
              ((if y ≠ sym then unionL st.1 (lrFirst sp n y) else st.1),
               sp.produce_eps y)
            else st) (acc, true)).1
        else acc) []
    else []

/-- Function `firsts(suffix)` over a symbol sequence, exactly the
three-way branch of the source; the empty case is unreachable because
every suffix passed ends with a lookahead terminal. -/
def lrFirsts {α : Type} [DecidableEq α] (sp : LRSpec α) (n : Nat) :
    List α → List α
  | [] => []
  | [x] => lrFirst sp n x
  | x :: rest =>
    if ¬ sp.produce_eps x then lrFirst sp n x
    else unionL (lrFirst sp n x) (lrFirsts sp n rest)

/-- The canonical LR(1) `Item`: head, body, dot position, lookahead. -/
structure Item (α : Type) where
  sym : α
  body : List α
  pos : Nat
  follow : α
deriving DecidableEq, Repr

/-- The items `get_closure` derives from one dequeued item: when a
non-terminal follows the dot, every production of it paired with every
terminal of `firsts` of the dot suffix extended by the lookahead. -/
def closureNewItems {α : Type} [DecidableEq α] (sp : LRSpec α)
    (it : Item α) : List (Item α) :=
  if it.pos < it.body.length ∧ it.body.getD it.pos sp.followInit ∈ sp.n_terminals
  then
    let sy := it.body.getD it.pos sp.followInit
    let suffix := it.body.drop (it.pos + 1) ++ [it.follow]
    let termins := lrFirsts sp (firstFuel sp) suffix
    ((sp.grammar.filter (fun pr => pr.1 = sy)).map
      (fun pr => termins.map (fun t => Item.mk sy pr.2 0 t))).flatten
  else []

/-- Sequential set insertion used by the closure worklist: grow the
accumulated item set and the queue only with genuinely new items. -/
def insertNew {α : Type} [DecidableEq α]
    (st : List (Item α) × List (Item α)) (x : Item α) :
    List (Item α) × List (Item α) :=
  if x ∈ st.1 then st else (st.1 ++ [x], st.2 ++ [x])

/-- Worklist loop of `get_closure`. -/
def getClosureLoop {α : Type} [DecidableEq α] (sp : LRSpec α) :
    Nat → List (Item α) → List (Item α) → List (Item α)
  | 0, acc, _ => acc
  | _ + 1, acc, [] => acc
  | n + 1, acc, it :: q =>
    let st := (closureNewItems sp it).foldl insertNew (acc, [])
    getClosureLoop sp n st.1 (q ++ st.2)

/-- Function `get_closure`: seed the worklist with the given items and
saturate. -/
def getClosure {α : Type} [DecidableEq α] (sp : LRSpec α)
    (seed : List (Item α)) : List (Item α) :=
  let st := seed.foldl insertNew ([], [])
  getClosureLoop sp 1000 st.1 st.2

/-- Function `goto(clos, letter)`: advance the dot over `letter` in
every item that admits it, then close. -/
def lrGoto {α : Type} [DecidableEq α] (sp : LRSpec α)
    (sets : List (Item α)) (letter : α) : List (Item α) :=
  let kernel := sets.foldl (fun acc it =>
    if it.pos < it.body.length ∧ it.body.getD it.pos sp.followInit = letter
    then
      let adv : Item α := { it with pos := it.pos + 1 }
      if adv ∈ acc then acc else acc ++ [adv]
    else acc) []
  getClosure sp kernel

/-- Python set equality of two item lists. -/
def sameItems {α : Type} [DecidableEq α]
    (a b : List (Item α)) : Bool :=
  a.all (fun x => x ∈ b) && b.all (fun x => x ∈ a)

/-- A labeled `Closure` of the canonical collection together with its
recorded `goto` dictionary (insertion order preserved, as for a Python
dict). -/
structure ClosureC (α : Type) where
  label : Nat
  sets : List (Item α)
  goto : List (α × Nat)
deriving DecidableEq, Repr

/-- Function `find_label(closure, group)`: the label of the value-equal
member, if any. -/
def find_label {α : Type} [DecidableEq α]
    (sets : List (Item α)) (group : List (ClosureC α)) : Option Nat :=
  (group.find? (fun c => sameItems c.sets sets)).map ClosureC.label

/-- Processing of one dequeued item set in `closure_groups`: walk
`all_symbols`, compute each `goto`, intern new sets, and record
transitions.  The `if go_label:` truthiness test of the source is kept
verbatim: a found label is recorded only when it is non-zero.
State: recorded transitions of the dequeued set, the collection seen so
far (labeled item sets), the pending queue, and the label counter. -/
def cgProcess {α : Type} [DecidableEq α] (sp : LRSpec α)
    (sets : List (Item α))
    (known : List (List (Item α) × Nat)) (queue : List (List (Item α) × Nat))
    (label : Nat) :
    List (α × Nat) × List (List (Item α) × Nat) ×
      List (List (Item α) × Nat) × Nat :=
  sp.all_symbols.foldl (fun st literal =>
    let (entries, known, queue, label) := st
    let go := lrGoto sp sets literal
    if go.isEmpty then (entries, known, queue, label)
    else if known.all (fun kv => ¬ sameItems kv.1 go) then
      let label' := label + 1
      (entries ++ [(literal, label')], known ++ [(go, label')],
       queue ++ [(go, label')], label')
    else
      match (known.find? (fun kv => sameItems kv.1 go)).map Prod.snd with
      | some l => if l ≠ 0 then (entries ++ [(literal, l)], known, queue, label)
                  else (entries, known, queue, label)
      | none => (entries, known, queue, label)) ([], known, queue, label)

/-- Worklist loop of `closure_groups`. -/
def cgLoop {α : Type} [DecidableEq α] (sp : LRSpec α) :
    Nat → List (ClosureC α) → List (List (Item α) × Nat) →
      List (List (Item α) × Nat) → Nat → List (ClosureC α)
  | 0, proc, _, _, _ => proc
  | _ + 1, proc, _, [], _ => proc
  | n + 1, proc, known, (sets, lbl) :: q, label =>
    let st := cgProcess sp sets known q label
    cgLoop sp n (proc ++ [⟨lbl, sets, st.1⟩]) st.2.1 st.2.2.1 st.2.2.2

/-- Function `closure_groups`: start from the closure of the augmented
start item with label 0 and drain the worklist. -/
def closure_groups {α : Type} [DecidableEq α] (sp : LRSpec α) :
    List (ClosureC α) :=
  let start := getClosure sp [Item.mk sp.startSym sp.startBody 0 sp.followInit]
  cgLoop sp 300 [] [(start, 0)] [(start, 0)] 0

/-- Index of a production in the grammar, `grammar.index(...)`. -/
def grammarIndex {α : Type} [DecidableEq α] (sp : LRSpec α)
    (sy : α) (body : List α) : Nat :=
  sp.grammar.findIdx (fun pr => pr.1 = sy ∧ pr.2 = body)

/-- Row template: one `"."` (empty cell) per symbol column. -/
def srowInit {α : Type} (sp : LRSpec α) : List String :=
  sp.all_symbols.map (fun _ => ".")

/-- First loop of `get_state_map`: for each recorded `goto` entry, write
the goto action (bare label) into non-terminal columns and the shift
action (`"s"+label`) into terminal columns, once per witnessing item. -/
def srowShift {α : Type} [DecidableEq α] (sp : LRSpec α)
    (c : ClosureC α) (row : List String) : List String :=
  c.goto.foldl (fun row ig =>
    let rpos := sp.all_symbols.indexOf ig.1
    c.sets.foldl (fun row it =>
      if it.pos < it.body.length ∧ it.body.getD it.pos sp.followInit = ig.1
      then
        if ig.1 ∈ sp.n_terminals then row.set rpos (toString ig.2)
        else if ig.1 ∈ sp.terminals then row.set rpos ("s" ++ toString ig.2)
        else row
      else row) row) row

/-- Second loop of `get_state_map`: for every column and every complete
item whose lookahead is the column symbol (and whose head is not the
augmented start), write the reduce action over whatever the cell held. -/
def srowReduce {α : Type} [DecidableEq α] (sp : LRSpec α)
    (c : ClosureC α) (row : List String) : List String :=
  sp.all_symbols.enum.foldl (fun row pi =>
    c.sets.foldl (fun row it =>
      if it.pos = it.body.length ∧ it.follow = pi.2 ∧ it.sym ≠ sp.startSym
      then row.set pi.1 ("r" ++ toString (grammarIndex sp it.sym it.body))
      else row) row) row

/-- Final step of `get_state_map`: the accept mark in the `"$"` column
when the completed augmented start item is present. -/
def srowAccept {α : Type} [DecidableEq α] (sp : LRSpec α)
    (c : ClosureC α) (row : List String) : List String :=
  if (Item.mk sp.startSym sp.startBody 1 sp.followInit) ∈ c.sets
  then row.set (sp.all_symbols.indexOf sp.followInit) "$"
  else row

/-- Function `get_state_map`: the three write phases in source order. -/
def get_state_map {α : Type} [DecidableEq α] (sp : LRSpec α)
    (c : ClosureC α) : List String :=
  srowAccept sp c (srowReduce sp c (srowShift sp c (srowInit sp)))

/-- Function `get_states_map`: rows placed at their closure's label in a
pre-allocated table (`state_map[closure.label] = row`). -/
def get_states_map {α : Type} [DecidableEq α] (sp : LRSpec α)
    (group : List (ClosureC α)) : List (List String) :=
  group.foldl (fun sm c => sm.set c.label (get_state_map sp c))
    (List.replicate group.length [])

/-- Function `generate_syntax_table`. -/
def generate_syntax_table {α : Type} [DecidableEq α] (sp : LRSpec α) :
    List (List String) :=
  get_states_map sp (closure_groups sp)

-- ===== The regex grammar instance (src/regex/parsing_table.py) =====

/-- The regex grammar after `_divide`, heads and bodies as characters. -/
def grammarR : List (Char × List Char) :=
  [('R', ['S']),
   ('S', ['S', '|', 'D']),
   ('S', ['S', 'D']),
   ('S', ['D']),
   ('D', ['K', '*']),
   ('D', ['K']),
   ('K', ['(', 'S', ')']),
   ('K', ['a'])]

/-- `produce_epsilon` of parsing_table.py: some body literally equals
the string `"epsilon"`; never true for this grammar. -/
def produce_epsilonR (c : Char) : Bool :=
  ((grammarR.filter (fun pr => pr.1 = c)).map Prod.snd).contains
    "epsilon".toList

/-- Module constants of src/regex/parsing_table.py.  `termFirst` is
`set(symbol)` on a one-character string: the singleton of its character.
`epsFirst` is `set().union("epsilon")`: the characters of "epsilon". -/
def regexSpec : LRSpec Char :=
  { grammar := grammarR,
    terminals := ['(', ')', '|', '*', 'a', '$'],
    n_terminals := ['S', 'R', 'D', 'K'],
    termFirst := fun c => [c],
    produce_eps := produce_epsilonR,
    epsFirst := "epsilon".toList,
    startSym := 'R',
    startBody := ['S'],
    followInit := '$' }

-- ===== The demo grammar instance (src/parser.py) =====

/-- The demo if/else grammar of parser.py. -/
def grammarP : List (String × List String) :=
  [("startsup", ["start"]),
   ("start", ["stmt"]),
   ("stmt", ["if", "(", "C", ")", "S1", "else", "S2"])]

/-- Module constants of src/parser.py.  `termFirst` is `set(symbol)` on
a full string: the set of its one-character substrings.
`produce_eps` embeds `'EPSILON' in [i[1] ...]`, which compares a string
against body tuples and is therefore always false. -/
def parserSpec : LRSpec String :=
  { grammar := grammarP,
    terminals := ["if", "(", "C", ")", "S1", "else", "S2", "$"],
    n_terminals := ["startsup", "start", "stmt"],
    termFirst := fun s => (s.toList.map (fun ch => String.mk [ch])).dedup,
    produce_eps := fun _ => false,
    epsFirst := ("EPSILON".toList.map (fun ch => String.mk [ch])).dedup,
    startSym := "startsup",
    startBody := ["start"],
    followInit := "$" }

/-- Lookup in a recorded `goto` dictionary. -/
def lookupGoto {α : Type} [DecidableEq α] (g : List (α × Nat)) (x : α) :
    Option Nat :=
  (g.find? (fun kv => kv.1 = x)).map Prod.snd

/-- A cell on which two emission rules of `get_states_map` would write
different actions: a recorded transition whose symbol some item shifts
over (the first write loop) together with a complete item reducing on
the same symbol (the second write loop). -/
def cellConflict {α : Type} [DecidableEq α] (sp : LRSpec α)
    (c : ClosureC α) (X : α) : Bool :=
  (c.goto.any (fun ig => ig.1 = X)) &&
  (c.sets.any (fun it =>
    it.pos < it.body.length ∧ it.body.getD it.pos sp.followInit = X)) &&
  (c.sets.any (fun it =>
    it.pos = it.body.length ∧ it.follow = X ∧ it.sym ≠ sp.startSym))

/-- A synthetic item set exhibiting a shift/reduce collision on column
'a': the shift rule (recorded goto for 'a' witnessed by `K -> .a`) and
the reduce rule (complete `S -> D.` with lookahead 'a') target the same
cell. -/
def conflictClosure : ClosureC Char :=
  ⟨0, [Item.mk 'K' ['a'] 0 '$', Item.mk 'S' ['D'] 1 'a'], [('a', 1)]⟩

/-!
Regex LR driver (src/regex/compiler.py).

The driver state is the pair of stacks plus `literal_machine`; semantic
values are the very translation strings the source accumulates (the
top-level `eval` of the finished string is outside the driver).  The
reduce branch pops one value per `"{}"` placeholder of the production's
template (`re.findall` counts them) — NOT one per body symbol — and
pushes the single rendered translation.  `None` models an uncaught
Python exception; the missing `else` branch of `ahead` is embedded
verbatim as returning the state unchanged.
-/

/-- Number of `"{}"` placeholders in `semantic[number]`, the count
`re.findall` yields in the reduce branch: templates 1 and 2
(`induct_or`, `induct_cat`) have two slots, all others one. -/
def semanticSlots : Nat → Nat
  | 1 => 2
  | 2 => 2
  | _ => 1

/-- Rendering of `semantic[number].format(*args)` for the eight fixed
templates of parsing_table.py. -/
def renderSemantic : Nat → List String → String
  | 0, [a] => "Machine(" ++ a ++ ")"
  | 1, [a, b] => "induct_or(" ++ a ++ ", " ++ b ++ ")"
  | 2, [a, b] => "induct_cat(" ++ a ++ ", " ++ b ++ ")"
  | 3, [a] => a
  | 4, [a] => "induct_star(" ++ a ++ ")"
  | 5, [a] => a
  | 6, [a] => a
  | 7, [a] => "basis(" ++ "\"" ++ a ++ "\"" ++ ")"
  | _, _ => ""

/-- The translations block of the reduce branch: pop one value per
placeholder (building `args` in stack order via `insert(0, ...)`), push
the rendered translation.  `none` models the IndexError a pop from an
exhausted stack would raise. -/
def reduceArgs (number : Nat) (argStack : List String) :
    Option (List String) :=
  let k := semanticSlots number
  if argStack.length < k then none
  else some (argStack.take (argStack.length - k) ++
    [renderSemantic number (argStack.drop (argStack.length - k))])

/-- The mutable attributes of a `RegexCompiler`. -/
structure CompState where
  state_stack : List Nat
  arg_stack : List String
  literal_machine : String
deriving DecidableEq, Repr

/-- Method `RegexCompiler.get_action`: a (state, symbol) cell of the
syntax table. -/
def get_action (table : List (List String)) (state : Nat) (literal : Char) :
    String :=
  (table.getD state []).getD (regexSpec.all_symbols.indexOf literal) "?"

/-- Decimal parse of `int(...)` on a character list: `none` models the
ValueError raised on an empty or non-digit argument. -/
def digitsToNat (ds : List Char) : Option Nat :=
  if ds.isEmpty then none
  else if ds.all Char.isDigit then
    some (ds.foldl (fun n c => n * 10 + (c.toNat - '0'.toNat)) 0)
  else none

/-- Method `RegexCompiler.ahead`.  The branch tests are Python's
`action[0] == 's'` / `'$'` / `'r'` on the cell's first character, and
`int(action[1:])` is `digitsToNat` of the remaining characters.  Shift
pushes the state and, for an 'a' lexeme only, the value; `"$"` pops the
result into `literal_machine`; reduce pops body-many states, pushes the
goto state, rewrites the value stack through `reduceArgs` and re-enters
with the same lexeme.  Any cell matching none of the three tests falls
through the if/elif chain and RETURNS SILENTLY — the state comes back
unchanged, exactly as the source's missing `else` does. -/
def ahead (table : List (List String)) :
    Nat → CompState → Char → String → Option CompState
  | 0, _, _, _ => none
  | n + 1, st, literal, value =>
    match st.state_stack.getLast? with
    | none => none
    | some s =>
      match (get_action table s literal).data with
      | [] => none
      | a0 :: rest =>
        if a0 = 's' then
          match digitsToNat rest with
          | none => none
          | some k =>
            some { st with
              state_stack := st.state_stack ++ [k],
              arg_stack :=
                if literal = 'a' then st.arg_stack ++ [value]
                else st.arg_stack }
        else if a0 = '$' then
          match st.arg_stack.getLast? with
          | none => none
          | some v =>
            some { st with
              arg_stack := st.arg_stack.dropLast, literal_machine := v }
        else if a0 = 'r' then
          match digitsToNat rest with
          | none => none
          | some number =>
            let production := grammarR.getD number ('?', [])
            if production.2.length < st.state_stack.length then
              let stack' := st.state_stack.take
                (st.state_stack.length - production.2.length)
              match stack'.getLast? with
              | none => none
              | some s2 =>
                match digitsToNat (get_action table s2 production.1).data with
                | none => none
                | some g =>
                  match reduceArgs number st.arg_stack with
                  | none => none
                  | some args' =>
                    ahead table n
                      { state_stack := stack' ++ [g], arg_stack := args',
                        literal_machine := st.literal_machine } literal value
            else none
        else some st

/-- Outcome of `Lexer.get_lexeme`: a lexeme, the end of the stream
(IndexError, which `parse` treats as end of input), or an EscapeError. -/
inductive LexOut where
  | lexeme (t : Char) (v : String) (rest : List Char)
  | strEnd
  | escErr
deriving DecidableEq, Repr

/-- Method `Lexer.get_lexeme` on the remaining character stream. -/
def lexStep : List Char → LexOut
  | [] => .strEnd
  | '\\' :: rest =>
    match rest with
    | [] => .strEnd
    | c :: rest' =>
      if c ∈ ['(', ')', '|', '*', '$'] then .lexeme 'a' (String.mk [c]) rest'
      else .escErr
  | c :: rest =>
    if c ∈ ['(', ')', '|', '*'] then .lexeme c (String.mk [c]) rest
    else .lexeme 'a' (String.mk [c]) rest

/-- Method `RegexCompiler.parse`: feed lexemes until the stream ends,
then feed the synthetic `"$"` lexeme.  `none` models an uncaught
exception (EscapeError or a crash inside `ahead`). -/
def parseLoop (table : List (List String)) :
    Nat → CompState → List Char → Option CompState
  | 0, _, _ => none
  | n + 1, st, stream =>
    match lexStep stream with
    | .strEnd => ahead table 100 st '$' "$"
    | .escErr => none
    | .lexeme t v rest =>
      match ahead table 100 st t v with
      | none => none
      | some st' => parseLoop table n st' rest

/-- The fresh compiler state of `RegexCompiler.__init__`. -/
def initCompState : CompState := ⟨[0], [], ""⟩

/-- Compiling a pattern down to its translation string (the phase of
`regex_compile` before the final `eval`). -/
def regexCompile (pattern : List Char) : Option CompState :=
  parseLoop (generate_syntax_table regexSpec) 200 initCompState pattern

/-- The canonical collection `closure_groups()` of the regex grammar,
as computed by the embedded generator (pinned once by
`closure_groups_regex_eval` so later proofs need not recompute it). -/
def regexGroupsLit : List (ClosureC Char) :=
  [⟨0,
  [⟨'R', ['S'], 0, '$'⟩,
   ⟨'S', ['S', '|', 'D'], 0, '$'⟩,
   ⟨'S', ['S', 'D'], 0, '$'⟩,
   ⟨'S', ['D'], 0, '$'⟩,
   ⟨'S', ['S', '|', 'D'], 0, '|'⟩,
   ⟨'S', ['S', 'D'], 0, '|'⟩,
   ⟨'S', ['D'], 0, '|'⟩,
   ⟨'S', ['S', '|', 'D'], 0, '('⟩,
   ⟨'S', ['S', '|', 'D'], 0, 'a'⟩,
   ⟨'S', ['S', 'D'], 0, '('⟩,
   ⟨'S', ['S', 'D'], 0, 'a'⟩,
   ⟨'S', ['D'], 0, '('⟩,
   ⟨'S', ['D'], 0, 'a'⟩,
   ⟨'D', ['K', '*'], 0, '$'⟩,
   ⟨'D', ['K'], 0, '$'⟩,
   ⟨'D', ['K', '*'], 0, '|'⟩,
   ⟨'D', ['K'], 0, '|'⟩,
   ⟨'D', ['K', '*'], 0, '('⟩,
   ⟨'D', ['K'], 0, '('⟩,
   ⟨'D', ['K', '*'], 0, 'a'⟩,
   ⟨'D', ['K'], 0, 'a'⟩,
   ⟨'K', ['(', 'S', ')'], 0, '*'⟩,
   ⟨'K', ['a'], 0, '*'⟩,
   ⟨'K', ['(', 'S', ')'], 0, '$'⟩,
   ⟨'K', ['a'], 0, '$'⟩,
   ⟨'K', ['(', 'S', ')'], 0, '|'⟩,
   ⟨'K', ['a'], 0, '|'⟩,
   ⟨'K', ['(', 'S', ')'], 0, '('⟩,
   ⟨'K', ['a'], 0, '('⟩,
   ⟨'K', ['(', 'S', ')'], 0, 'a'⟩,
   ⟨'K', ['a'], 0, 'a'⟩],
  [('(', 1), ('a', 2), ('S', 3), ('D', 4), ('K', 5)]⟩,
 ⟨1,
  [⟨'K', ['(', 'S', ')'], 1, '*'⟩,
   ⟨'K', ['(', 'S', ')'], 1, '$'⟩,
   ⟨'K', ['(', 'S', ')'], 1, '|'⟩,
   ⟨'K', ['(', 'S', ')'], 1, '('⟩,
   ⟨'K', ['(', 'S', ')'], 1, 'a'⟩,
   ⟨'S', ['S', '|', 'D'], 0, ')'⟩,
   ⟨'S', ['S', 'D'], 0, ')'⟩,
   ⟨'S', ['D'], 0, ')'⟩,
   ⟨'S', ['S', '|', 'D'], 0, '|'⟩,
   ⟨'S', ['S', 'D'], 0, '|'⟩,
   ⟨'S', ['D'], 0, '|'⟩,
   ⟨'S', ['S', '|', 'D'], 0, '('⟩,
   ⟨'S', ['S', '|', 'D'], 0, 'a'⟩,
   ⟨'S', ['S', 'D'], 0, '('⟩,
   ⟨'S', ['S', 'D'], 0, 'a'⟩,
   ⟨'S', ['D'], 0, '('⟩,
   ⟨'S', ['D'], 0, 'a'⟩,
   ⟨'D', ['K', '*'], 0, ')'⟩,
   ⟨'D', ['K'], 0, ')'⟩,
   ⟨'D', ['K', '*'], 0, '|'⟩,
   ⟨'D', ['K'], 0, '|'⟩,
   ⟨'D', ['K', '*'], 0, '('⟩,
   ⟨'D', ['K'], 0, '('⟩,
   ⟨'D', ['K', '*'], 0, 'a'⟩,
   ⟨'D', ['K'], 0, 'a'⟩,
   ⟨'K', ['(', 'S', ')'], 0, '*'⟩,
   ⟨'K', ['a'], 0, '*'⟩,
   ⟨'K', ['(', 'S', ')'], 0, ')'⟩,
   ⟨'K', ['a'], 0, ')'⟩,
   ⟨'K', ['(', 'S', ')'], 0, '|'⟩,
   ⟨'K', ['a'], 0, '|'⟩,
   ⟨'K', ['(', 'S', ')'], 0, '('⟩,
   ⟨'K', ['a'], 0, '('⟩,
   ⟨'K', ['(', 'S', ')'], 0, 'a'⟩,
   ⟨'K', ['a'], 0, 'a'⟩],
  [('(', 6), ('a', 7), ('S', 8), ('D', 9), ('K', 10)]⟩,
 ⟨2,
  [⟨'K', ['a'], 1, '*'⟩,
   ⟨'K', ['a'], 1, '$'⟩,
   ⟨'K', ['a'], 1, '|'⟩,
   ⟨'K', ['a'], 1, '('⟩,
   ⟨'K', ['a'], 1, 'a'⟩],
  []⟩,
 ⟨3,
  [⟨'R', ['S'], 1, '$'⟩,
   ⟨'S', ['S', '|', 'D'], 1, '$'⟩,
   ⟨'S', ['S', 'D'], 1, '$'⟩,
   ⟨'S', ['S', '|', 'D'], 1, '|'⟩,
   ⟨'S', ['S', 'D'], 1, '|'⟩,
   ⟨'S', ['S', '|', 'D'], 1, '('⟩,
   ⟨'S', ['S', '|', 'D'], 1, 'a'⟩,
   ⟨'S', ['S', 'D'], 1, '('⟩,
   ⟨'S', ['S', 'D'], 1, 'a'⟩,
   ⟨'D', ['K', '*'], 0, '$'⟩,
   ⟨'D', ['K'], 0, '$'⟩,
   ⟨'D', ['K', '*'], 0, '|'⟩,
   ⟨'D', ['K'], 0, '|'⟩,
   ⟨'D', ['K', '*'], 0, '('⟩,
   ⟨'D', ['K'], 0, '('⟩,
   ⟨'D', ['K', '*'], 0, 'a'⟩,
   ⟨'D', ['K'], 0, 'a'⟩,
   ⟨'K', ['(', 'S', ')'], 0, '*'⟩,
   ⟨'K', ['a'], 0, '*'⟩,
   ⟨'K', ['(', 'S', ')'], 0, '$'⟩,
   ⟨'K', ['a'], 0, '$'⟩,
   ⟨'K', ['(', 'S', ')'], 0, '|'⟩,
   ⟨'K', ['a'], 0, '|'⟩,
   ⟨'K', ['(', 'S', ')'], 0, '('⟩,
   ⟨'K', ['a'], 0, '('⟩,
   ⟨'K', ['(', 'S', ')'], 0, 'a'⟩,
   ⟨'K', ['a'], 0, 'a'⟩],
  [('(', 1), ('|', 11), ('a', 2), ('D', 12), ('K', 5)]⟩,
 ⟨4,
  [⟨'S', ['D'], 1, '$'⟩,
   ⟨'S', ['D'], 1, '|'⟩,
   ⟨'S', ['D'], 1, '('⟩,
   ⟨'S', ['D'], 1, 'a'⟩],
  []⟩,
 ⟨5,
  [⟨'D', ['K', '*'], 1, '$'⟩,
   ⟨'D', ['K'], 1, '$'⟩,
   ⟨'D', ['K', '*'], 1, '|'⟩,
   ⟨'D', ['K'], 1, '|'⟩,
   ⟨'D', ['K', '*'], 1, '('⟩,
   ⟨'D', ['K'], 1, '('⟩,
   ⟨'D', ['K', '*'], 1, 'a'⟩,
   ⟨'D', ['K'], 1, 'a'⟩],
  [('*', 13)]⟩,
 ⟨6,
  [⟨'K', ['(', 'S', ')'], 1, '*'⟩,
   ⟨'K', ['(', 'S', ')'], 1, ')'⟩,
   ⟨'K', ['(', 'S', ')'], 1, '|'⟩,
   ⟨'K', ['(', 'S', ')'], 1, '('⟩,
   ⟨'K', ['(', 'S', ')'], 1, 'a'⟩,
   ⟨'S', ['S', '|', 'D'], 0, ')'⟩,
   ⟨'S', ['S', 'D'], 0, ')'⟩,
   ⟨'S', ['D'], 0, ')'⟩,
   ⟨'S', ['S', '|', 'D'], 0, '|'⟩,
   ⟨'S', ['S', 'D'], 0, '|'⟩,
   ⟨'S', ['D'], 0, '|'⟩,
   ⟨'S', ['S', '|', 'D'], 0, '('⟩,
   ⟨'S', ['S', '|', 'D'], 0, 'a'⟩,
   ⟨'S', ['S', 'D'], 0, '('⟩,
   ⟨'S', ['S', 'D'], 0, 'a'⟩,
   ⟨'S', ['D'], 0, '('⟩,
   ⟨'S', ['D'], 0, 'a'⟩,
   ⟨'D', ['K', '*'], 0, ')'⟩,
   ⟨'D', ['K'], 0, ')'⟩,
   ⟨'D', ['K', '*'], 0, '|'⟩,
   ⟨'D', ['K'], 0, '|'⟩,
   ⟨'D', ['K', '*'], 0, '('⟩,
   ⟨'D', ['K'], 0, '('⟩,
   ⟨'D', ['K', '*'], 0, 'a'⟩,
   ⟨'D', ['K'], 0, 'a'⟩,
   ⟨'K', ['(', 'S', ')'], 0, '*'⟩,
   ⟨'K', ['a'], 0, '*'⟩,
   ⟨'K', ['(', 'S', ')'], 0, ')'⟩,
   ⟨'K', ['a'], 0, ')'⟩,
   ⟨'K', ['(', 'S', ')'], 0, '|'⟩,
   ⟨'K', ['a'], 0, '|'⟩,
   ⟨'K', ['(', 'S', ')'], 0, '('⟩,
   ⟨'K', ['a'], 0, '('⟩,
   ⟨'K', ['(', 'S', ')'], 0, 'a'⟩,
   ⟨'K', ['a'], 0, 'a'⟩],
  [('(', 6), ('a', 7), ('S', 14), ('D', 9), ('K', 10)]⟩,
 ⟨7,
  [⟨'K', ['a'], 1, '*'⟩,
   ⟨'K', ['a'], 1, ')'⟩,
   ⟨'K', ['a'], 1, '|'⟩,
   ⟨'K', ['a'], 1, '('⟩,
   ⟨'K', ['a'], 1, 'a'⟩],
  []⟩,
 ⟨8,
  [⟨'K', ['(', 'S', ')'], 2, '*'⟩,
   ⟨'K', ['(', 'S', ')'], 2, '$'⟩,
   ⟨'K', ['(', 'S', ')'], 2, '|'⟩,
   ⟨'K', ['(', 'S', ')'], 2, '('⟩,
   ⟨'K', ['(', 'S', ')'], 2, 'a'⟩,
   ⟨'S', ['S', '|', 'D'], 1, ')'⟩,
   ⟨'S', ['S', 'D'], 1, ')'⟩,
   ⟨'S', ['S', '|', 'D'], 1, '|'⟩,
   ⟨'S', ['S', 'D'], 1, '|'⟩,
   ⟨'S', ['S', '|', 'D'], 1, '('⟩,
   ⟨'S', ['S', '|', 'D'], 1, 'a'⟩,
   ⟨'S', ['S', 'D'], 1, '('⟩,
   ⟨'S', ['S', 'D'], 1, 'a'⟩,
   ⟨'D', ['K', '*'], 0, ')'⟩,
   ⟨'D', ['K'], 0, ')'⟩,
   ⟨'D', ['K', '*'], 0, '|'⟩,
   ⟨'D', ['K'], 0, '|'⟩,
   ⟨'D', ['K', '*'], 0, '('⟩,
   ⟨'D', ['K'], 0, '('⟩,
   ⟨'D', ['K', '*'], 0, 'a'⟩,
   ⟨'D', ['K'], 0, 'a'⟩,
   ⟨'K', ['(', 'S', ')'], 0, '*'⟩,
   ⟨'K', ['a'], 0, '*'⟩,
   ⟨'K', ['(', 'S', ')'], 0, ')'⟩,
   ⟨'K', ['a'], 0, ')'⟩,
   ⟨'K', ['(', 'S', ')'], 0, '|'⟩,
   ⟨'K', ['a'], 0, '|'⟩,
   ⟨'K', ['(', 'S', ')'], 0, '('⟩,
   ⟨'K', ['a'], 0, '('⟩,
   ⟨'K', ['(', 'S', ')'], 0, 'a'⟩,
   ⟨'K', ['a'], 0, 'a'⟩],
  [('(', 6), (')', 15), ('|', 16), ('a', 7), ('D', 17), ('K', 10)]⟩,
 ⟨9,
  [⟨'S', ['D'], 1, ')'⟩,
   ⟨'S', ['D'], 1, '|'⟩,
   ⟨'S', ['D'], 1, '('⟩,
   ⟨'S', ['D'], 1, 'a'⟩],
  []⟩,
 ⟨10,
  [⟨'D', ['K', '*'], 1, ')'⟩,
   ⟨'D', ['K'], 1, ')'⟩,
   ⟨'D', ['K', '*'], 1, '|'⟩,
   ⟨'D', ['K'], 1, '|'⟩,
   ⟨'D', ['K', '*'], 1, '('⟩,
   ⟨'D', ['K'], 1, '('⟩,
   ⟨'D', ['K', '*'], 1, 'a'⟩,
   ⟨'D', ['K'], 1, 'a'⟩],
  [('*', 18)]⟩,
 ⟨11,
  [⟨'S', ['S', '|', 'D'], 2, '$'⟩,
   ⟨'S', ['S', '|', 'D'], 2, '|'⟩,
   ⟨'S', ['S', '|', 'D'], 2, '('⟩,
   ⟨'S', ['S', '|', 'D'], 2, 'a'⟩,
   ⟨'D', ['K', '*'], 0, '$'⟩,
   ⟨'D', ['K'], 0, '$'⟩,
   ⟨'D', ['K', '*'], 0, '|'⟩,
   ⟨'D', ['K'], 0, '|'⟩,
   ⟨'D', ['K', '*'], 0, '('⟩,
   ⟨'D', ['K'], 0, '('⟩,
   ⟨'D', ['K', '*'], 0, 'a'⟩,
   ⟨'D', ['K'], 0, 'a'⟩,
   ⟨'K', ['(', 'S', ')'], 0, '*'⟩,
   ⟨'K', ['a'], 0, '*'⟩,
   ⟨'K', ['(', 'S', ')'], 0, '$'⟩,
   ⟨'K', ['a'], 0, '$'⟩,
   ⟨'K', ['(', 'S', ')'], 0, '|'⟩,
   ⟨'K', ['a'], 0, '|'⟩,
   ⟨'K', ['(', 'S', ')'], 0, '('⟩,
   ⟨'K', ['a'], 0, '('⟩,
   ⟨'K', ['(', 'S', ')'], 0, 'a'⟩,
   ⟨'K', ['a'], 0, 'a'⟩],
  [('(', 1), ('a', 2), ('D', 19), ('K', 5)]⟩,
 ⟨12,
  [⟨'S', ['S', 'D'], 2, '$'⟩,
   ⟨'S', ['S', 'D'], 2, '|'⟩,
   ⟨'S', ['S', 'D'], 2, '('⟩,
   ⟨'S', ['S', 'D'], 2, 'a'⟩],
  []⟩,
 ⟨13,
  [⟨'D', ['K', '*'], 2, '$'⟩,
   ⟨'D', ['K', '*'], 2, '|'⟩,
   ⟨'D', ['K', '*'], 2, '('⟩,
   ⟨'D', ['K', '*'], 2, 'a'⟩],
  []⟩,
 ⟨14,
  [⟨'K', ['(', 'S', ')'], 2, '*'⟩,
   ⟨'K', ['(', 'S', ')'], 2, ')'⟩,
   ⟨'K', ['(', 'S', ')'], 2, '|'⟩,
   ⟨'K', ['(', 'S', ')'], 2, '('⟩,
   ⟨'K', ['(', 'S', ')'], 2, 'a'⟩,
   ⟨'S', ['S', '|', 'D'], 1, ')'⟩,
   ⟨'S', ['S', 'D'], 1, ')'⟩,
   ⟨'S', ['S', '|', 'D'], 1, '|'⟩,
   ⟨'S', ['S', 'D'], 1, '|'⟩,
   ⟨'S', ['S', '|', 'D'], 1, '('⟩,
   ⟨'S', ['S', '|', 'D'], 1, 'a'⟩,
   ⟨'S', ['S', 'D'], 1, '('⟩,
   ⟨'S', ['S', 'D'], 1, 'a'⟩,
   ⟨'D', ['K', '*'], 0, ')'⟩,
   ⟨'D', ['K'], 0, ')'⟩,
   ⟨'D', ['K', '*'], 0, '|'⟩,
   ⟨'D', ['K'], 0, '|'⟩,
   ⟨'D', ['K', '*'], 0, '('⟩,
   ⟨'D', ['K'], 0, '('⟩,
   ⟨'D', ['K', '*'], 0, 'a'⟩,
   ⟨'D', ['K'], 0, 'a'⟩,
   ⟨'K', ['(', 'S', ')'], 0, '*'⟩,
   ⟨'K', ['a'], 0, '*'⟩,
   ⟨'K', ['(', 'S', ')'], 0, ')'⟩,
   ⟨'K', ['a'], 0, ')'⟩,
   ⟨'K', ['(', 'S', ')'], 0, '|'⟩,
   ⟨'K', ['a'], 0, '|'⟩,
   ⟨'K', ['(', 'S', ')'], 0, '('⟩,
   ⟨'K', ['a'], 0, '('⟩,
   ⟨'K', ['(', 'S', ')'], 0, 'a'⟩,
   ⟨'K', ['a'], 0, 'a'⟩],
  [('(', 6), (')', 20), ('|', 16), ('a', 7), ('D', 17), ('K', 10)]⟩,
 ⟨15,
  [⟨'K', ['(', 'S', ')'], 3, '*'⟩,
   ⟨'K', ['(', 'S', ')'], 3, '$'⟩,
   ⟨'K', ['(', 'S', ')'], 3, '|'⟩,
   ⟨'K', ['(', 'S', ')'], 3, '('⟩,
   ⟨'K', ['(', 'S', ')'], 3, 'a'⟩],
  []⟩,
 ⟨16,
  [⟨'S', ['S', '|', 'D'], 2, ')'⟩,
   ⟨'S', ['S', '|', 'D'], 2, '|'⟩,
   ⟨'S', ['S', '|', 'D'], 2, '('⟩,
   ⟨'S', ['S', '|', 'D'], 2, 'a'⟩,
   ⟨'D', ['K', '*'], 0, ')'⟩,
   ⟨'D', ['K'], 0, ')'⟩,
   ⟨'D', ['K', '*'], 0, '|'⟩,
   ⟨'D', ['K'], 0, '|'⟩,
   ⟨'D', ['K', '*'], 0, '('⟩,
   ⟨'D', ['K'], 0, '('⟩,
   ⟨'D', ['K', '*'], 0, 'a'⟩,
   ⟨'D', ['K'], 0, 'a'⟩,
   ⟨'K', ['(', 'S', ')'], 0, '*'⟩,
   ⟨'K', ['a'], 0, '*'⟩,
   ⟨'K', ['(', 'S', ')'], 0, ')'⟩,
   ⟨'K', ['a'], 0, ')'⟩,
   ⟨'K', ['(', 'S', ')'], 0, '|'⟩,
   ⟨'K', ['a'], 0, '|'⟩,
   ⟨'K', ['(', 'S', ')'], 0, '('⟩,
   ⟨'K', ['a'], 0, '('⟩,
   ⟨'K', ['(', 'S', ')'], 0, 'a'⟩,
   ⟨'K', ['a'], 0, 'a'⟩],
  [('(', 6), ('a', 7), ('D', 21), ('K', 10)]⟩,
 ⟨17,
  [⟨'S', ['S', 'D'], 2, ')'⟩,
   ⟨'S', ['S', 'D'], 2, '|'⟩,
   ⟨'S', ['S', 'D'], 2, '('⟩,
   ⟨'S', ['S', 'D'], 2, 'a'⟩],
  []⟩,
 ⟨18,
  [⟨'D', ['K', '*'], 2, ')'⟩,
   ⟨'D', ['K', '*'], 2, '|'⟩,
   ⟨'D', ['K', '*'], 2, '('⟩,
   ⟨'D', ['K', '*'], 2, 'a'⟩],
  []⟩,
 ⟨19,
  [⟨'S', ['S', '|', 'D'], 3, '$'⟩,
   ⟨'S', ['S', '|', 'D'], 3, '|'⟩,
   ⟨'S', ['S', '|', 'D'], 3, '('⟩,
   ⟨'S', ['S', '|', 'D'], 3, 'a'⟩],
  []⟩,
 ⟨20,
  [⟨'K', ['(', 'S', ')'], 3, '*'⟩,
   ⟨'K', ['(', 'S', ')'], 3, ')'⟩,
   ⟨'K', ['(', 'S', ')'], 3, '|'⟩,
   ⟨'K', ['(', 'S', ')'], 3, '('⟩,
   ⟨'K', ['(', 'S', ')'], 3, 'a'⟩],
  []⟩,
 ⟨21,
  [⟨'S', ['S', '|', 'D'], 3, ')'⟩,
   ⟨'S', ['S', '|', 'D'], 3, '|'⟩,
   ⟨'S', ['S', '|', 'D'], 3, '('⟩,
   ⟨'S', ['S', '|', 'D'], 3, 'a'⟩],
  []⟩]

/-- The regex `generate_syntax_table()` result, pinned by
`generate_syntax_table_regex_eval`. -/
def regexTableLit : List (List String) :=
  [["s1", ".", ".", ".", "s2", ".", "3", ".", "4", "5"],
 ["s6", ".", ".", ".", "s7", ".", "8", ".", "9", "10"],
 ["r7", ".", "r7", "r7", "r7", "r7", ".", ".", ".", "."],
 ["s1", ".", "s11", ".", "s2", "$", ".", ".", "12", "5"],
 ["r3", ".", "r3", ".", "r3", "r3", ".", ".", ".", "."],
 ["r5", ".", "r5", "s13", "r5", "r5", ".", ".", ".", "."],
 ["s6", ".", ".", ".", "s7", ".", "14", ".", "9", "10"],
 ["r7", "r7", "r7", "r7", "r7", ".", ".", ".", ".", "."],
 ["s6", "s15", "s16", ".", "s7", ".", ".", ".", "17", "10"],
 ["r3", "r3", "r3", ".", "r3", ".", ".", ".", ".", "."],
 ["r5", "r5", "r5", "s18", "r5", ".", ".", ".", ".", "."],
 ["s1", ".", ".", ".", "s2", ".", ".", ".", "19", "5"],
 ["r2", ".", "r2", ".", "r2", "r2", ".", ".", ".", "."],
 ["r4", ".", "r4", ".", "r4", "r4", ".", ".", ".", "."],
 ["s6", "s20", "s16", ".", "s7", ".", ".", ".", "17", "10"],
 ["r6", ".", "r6", "r6", "r6", "r6", ".", ".", ".", "."],
 ["s6", ".", ".", ".", "s7", ".", ".", ".", "21", "10"],
 ["r2", "r2", "r2", ".", "r2", ".", ".", ".", ".", "."],
 ["r4", "r4", "r4", ".", "r4", ".", ".", ".", ".", "."],
 ["r1", ".", "r1", ".", "r1", "r1", ".", ".", ".", "."],
 ["r6", "r6", "r6", "r6", "r6", ".", ".", ".", ".", "."],
 ["r1", "r1", "r1", ".", "r1", ".", ".", ".", ".", "."]]

-- ===== End of embedded definitions; verification lemmas and claim theorems follow =====

-- ===== Lemmas about the ε-closure engine =====

/-- Membership in one ε sweep. -/
theorem mem_epsStep {P : List PathT} {t : Finset Nat} {x : Nat} :
    x ∈ epsStep P t ↔ ∃ p ∈ P, p.begin ∈ t ∧ p.label = epsilon ∧ p.dest = x := by
  simp only [epsStep, List.mem_toFinset, List.mem_map, List.mem_filter,
    Bool.and_eq_true, decide_eq_true_eq, is_epsilon, beq_iff_eq]
  constructor
  · rintro ⟨p, ⟨hp, hb, hl⟩, hd⟩
    exact ⟨p, hp, hb, hl, hd⟩
  · rintro ⟨p, hp, hb, hl, hd⟩
    exact ⟨p, ⟨hp, hb, hl⟩, hd⟩

/-- Every state an ε sweep adds is the end of some ε path. -/
theorem epsStep_subset_epsEnds (P : List PathT) (t : Finset Nat) :
    epsStep P t ⊆ epsEnds P := by
  intro x hx
  rcases mem_epsStep.1 hx with ⟨p, hp, _, hl, hd⟩
  simp only [epsEnds, List.mem_toFinset, List.mem_map, List.mem_filter,
    is_epsilon, beq_iff_eq]
  exact ⟨p, ⟨hp, hl⟩, hd⟩

/-- The seed set survives into the fueled closure. -/
theorem subset_eClosAux (P : List PathT) : ∀ n t, t ⊆ eClosAux P n t := by
  intro n
  induction n with
  | zero => intro t; simp [eClosAux]
  | succ n ih =>
    intro t
    simp only [eClosAux]
    split
    · exact subset_rfl
    · exact Finset.subset_union_left.trans (ih _)

/-- With enough fuel the result of `eClosAux` is a fixed point of the
sweep: the fueled loop really computes what the unbounded Python
recursion in `Machine.e_closure` computes. -/
theorem epsStep_eClosAux_subset (P : List PathT) :
    ∀ n t, (epsEnds P \ t).card < n →
      epsStep P (eClosAux P n t) ⊆ eClosAux P n t := by
  intro n
  induction n with
  | zero => intro t h; exact absurd h (Nat.not_lt_zero _)
  | succ n ih =>
    intro t h
    simp only [eClosAux]
    split
    · assumption
    · rename_i hns
      apply ih
      rcases Finset.not_subset.1 hns with ⟨e, he, hnt⟩
      have hcard : (epsEnds P \ (t ∪ epsStep P t)).card < (epsEnds P \ t).card := by
        apply Finset.card_lt_card
        constructor
        · intro y hy
          rcases Finset.mem_sdiff.1 hy with ⟨h1, h2⟩
          exact Finset.mem_sdiff.2 ⟨h1, fun hc => h2 (Finset.mem_union_left _ hc)⟩
        · intro hsub
          have : e ∈ epsEnds P \ t :=
            Finset.mem_sdiff.2 ⟨epsStep_subset_epsEnds P t he, hnt⟩
          have := Finset.mem_sdiff.1 (hsub this)
          exact this.2 (Finset.mem_union_right _ he)
      omega

/-- Soundness half: every member of the fueled closure is ε-reachable
from the seed set. -/
theorem eClosAux_sound (P : List PathT) (S : Finset Nat) :
    ∀ n t, (∀ x ∈ t, ∃ a ∈ S, Reach P a x) →
      ∀ x ∈ eClosAux P n t, ∃ a ∈ S, Reach P a x := by
  intro n
  induction n with
  | zero => intro t ht x hx; exact ht x (by simpa [eClosAux] using hx)
  | succ n ih =>
    intro t ht x hx
    simp only [eClosAux] at hx
    split at hx
    · exact ht x hx
    · refine ih _ ?_ x hx
      intro y hy
      rcases Finset.mem_union.1 hy with h | h
      · exact ht y h
      · rcases mem_epsStep.1 h with ⟨p, hp, hb, hl, hd⟩
        rcases ht _ hb with ⟨a, ha, hr⟩
        exact ⟨a, ha, hr.tail ⟨p, hp, rfl, hd, hl⟩⟩

/-- Completeness half: every ε-reachable state enters the fueled closure. -/
theorem reach_mem_eClos (P : List PathT) (S : Finset Nat) {a x : Nat}
    (ha : a ∈ S) (hr : Reach P a x) : x ∈ eClosAux P (fuelOf P) S := by
  induction hr with
  | refl => exact subset_eClosAux P _ S ha
  | tail _ e ih =>
    have hb : (epsEnds P \ S).card < fuelOf P := by
      have := Finset.card_le_card (Finset.sdiff_subset (s := epsEnds P) (t := S))
      simp only [fuelOf]
      omega
    apply epsStep_eClosAux_subset P (fuelOf P) S hb
    rcases e with ⟨p, hp, hbg, hd, hl⟩
    exact mem_epsStep.2 ⟨p, hp, by rw [hbg]; exact ih, hl, hd⟩

/-- Characterisation of the ε-closure computed with the canonical fuel. -/
theorem mem_eClos_iff (P : List PathT) (S : Finset Nat) {x : Nat} :
    x ∈ eClosAux P (fuelOf P) S ↔ ∃ a ∈ S, Reach P a x :=
  ⟨eClosAux_sound P S _ S (fun y hy => ⟨y, hy, Relation.ReflTransGen.refl⟩) x,
   fun ⟨_, ha, hr⟩ => reach_mem_eClos P S ha hr⟩

/-- The computed closure is closed under ε reachability. -/
theorem eClos_closed (P : List PathT) (S : Finset Nat) :
    EpsClosed P (eClosAux P (fuelOf P) S) := by
  intro x hx y hy
  rcases (mem_eClos_iff P S).1 hx with ⟨a, ha, hr⟩
  exact (mem_eClos_iff P S).2 ⟨a, ha, hr.trans hy⟩

/-- States of a machine, as in the inherited `Graph.get_states`. -/
theorem machine_states_def (M : MachineT) :
    (GraphT.mk M.paths M.start M.finish).get_states =
      (M.paths.map PathT.begin).toFinset ∪ (M.paths.map PathT.dest).toFinset := rfl

/-- C9: for every non-empty set `S` of states of a machine, `e_closure`
is idempotent: applying it to its own (successful) result returns that
very set again. -/
theorem e_closure_idempotent (M : MachineT) (S : Finset Nat)
    (hne : S ≠ ∅)
    (hS : ∀ x ∈ S, x ∈ (GraphT.mk M.paths M.start M.finish).get_states) :
    ∃ T, e_closure M.paths S = some T ∧ e_closure M.paths T = some T := by
  have hTne : eClosAux M.paths (fuelOf M.paths) S ≠ ∅ := by
    intro hempty
    rcases Finset.nonempty_iff_ne_empty.2 hne with ⟨a, ha⟩
    have := subset_eClosAux M.paths (fuelOf M.paths) S ha
    rw [hempty] at this
    exact absurd this (Finset.not_mem_empty a)
  have hfix : epsStep M.paths (eClosAux M.paths (fuelOf M.paths) S) ⊆
      eClosAux M.paths (fuelOf M.paths) S := by
    apply epsStep_eClosAux_subset
    have := Finset.card_le_card
      (Finset.sdiff_subset (s := epsEnds M.paths) (t := S))
    simp only [fuelOf]
    omega
  have key : ∀ T : Finset Nat, epsStep M.paths T ⊆ T →
      eClosAux M.paths (fuelOf M.paths) T = T := by
    intro T h
    show eClosAux M.paths ((epsEnds M.paths).card + 1) T = T
    simp only [eClosAux]
    rw [if_pos h]
  refine ⟨eClosAux M.paths (fuelOf M.paths) S, ?_, ?_⟩
  · show (if S = ∅ then none else some (eClosAux M.paths (fuelOf M.paths) S)) = _
    rw [if_neg hne]
  · show (if eClosAux M.paths (fuelOf M.paths) S = ∅ then none
        else some (eClosAux M.paths (fuelOf M.paths)
          (eClosAux M.paths (fuelOf M.paths) S))) = _
    rw [if_neg hTne, key _ hfix]

/-- Witness for C9 at a concrete star machine and the seed `{0}`. -/
theorem e_closure_idempotent_witness :
    (({0} : Finset Nat) ≠ ∅) ∧
      (∃ T, e_closure (mkMachine (induct_star (basis 'a' 0 1) 2 3)).paths {0} = some T ∧
        e_closure (mkMachine (induct_star (basis 'a' 0 1) 2 3)).paths T = some T) :=
  ⟨by decide,
   e_closure_idempotent (mkMachine (induct_star (basis 'a' 0 1) 2 3)) {0}
     (by decide) (by decide)⟩

/-- Helper: every return branch of `match` leaves the frontier at
`e_closure({start})`. -/
theorem matchM_current_reset (M : MachineT) (s : List Char) :
    e_closure M.paths {M.start} = some ((matchM M s).2.current) := by
  have hne : ({M.start} : Finset Nat) ≠ ∅ := by
    intro h
    exact absurd (h ▸ Finset.mem_singleton_self M.start) (Finset.not_mem_empty _)
  cases h : runSteps M.paths M.current s with
  | none => simp [matchM, h, e_closure, hne, resetClos]
  | some cur => simp [matchM, h, e_closure, hne, resetClos]

/-- C6: `match` always returns with the machine's frontier reset to
`e_closure({start})`, whatever the outcome. -/
theorem match_leaves_reset (M : MachineT) (s : List Char) :
    e_closure M.paths {M.start} = some ((matchM M s).2.current) :=
  matchM_current_reset M s

/-- Splitting the letter loop of `match` at a list append. -/
theorem runSteps_append (P : List PathT) :
    ∀ (a b : List Char) (cur : Finset Nat),
      runSteps P cur (a ++ b) = (runSteps P cur a).bind (fun m => runSteps P m b) := by
  intro a
  induction a with
  | nil => intro b cur; rfl
  | cons c rest ih =>
    intro b cur
    simp only [List.cons_append, runSteps]
    cases step_by P cur c with
    | none => rfl
    | some cur' => exact ih b cur'

/-- C7: when some letter of the stream has no outgoing edge with that
label from any frontier state, `match` returns `false` (the
NotMatchException is swallowed) and the machine is reset. -/
theorem match_no_transition_false (M : MachineT) (s t1 t2 : List Char)
    (c : Char) (cur : Finset Nat)
    (hsplit : s = t1 ++ c :: t2)
    (hrun : runSteps M.paths M.current t1 = some cur)
    (hempty : letterTargets M.paths cur c = ∅) :
    (matchM M s).1 = false ∧
      e_closure M.paths {M.start} = some ((matchM M s).2.current) := by
  refine ⟨?_, matchM_current_reset M s⟩
  have hstep : step_by M.paths cur c = none := by
    simp [step_by, e_closure, hempty]
  have hrunall : runSteps M.paths M.current s = none := by
    rw [hsplit, runSteps_append, hrun]
    simp [runSteps, hstep]
  simp [matchM, hrunall]

/-- Witness for C7: the one-letter machine for 'a' run on "b". -/
theorem match_no_transition_false_witness :
    (['b'] = ([] : List Char) ++ 'b' :: []) ∧
      runSteps (mkMachine (basis 'a' 0 1)).paths (mkMachine (basis 'a' 0 1)).current []
        = some {0} ∧
      letterTargets (mkMachine (basis 'a' 0 1)).paths {0} 'b' = ∅ ∧
      ((matchM (mkMachine (basis 'a' 0 1)) ['b']).1 = false ∧
        e_closure (mkMachine (basis 'a' 0 1)).paths {(mkMachine (basis 'a' 0 1)).start}
          = some ((matchM (mkMachine (basis 'a' 0 1)) ['b']).2.current)) :=
  ⟨rfl, by decide, by decide,
   match_no_transition_false (mkMachine (basis 'a' 0 1)) ['b'] [] [] 'b' {0}
     rfl (by decide) (by decide)⟩



-- ===== Lemmas about the Thompson constructors =====

/-- Allocation ranges are non-trivial. -/
theorem produced_lt {lo hi : Nat} {g : GraphT} (h : Produced lo hi g) : lo < hi := by
  induction h with
  | basis c lo => omega
  | or _ _ ih1 ih2 => omega
  | cat _ _ ih1 ih2 => omega
  | star _ ih => omega

/-- Every state id of a produced graph lies inside its arena range. -/
theorem produced_bounded {lo hi : Nat} {g : GraphT} (h : Produced lo hi g) :
    (∀ p ∈ g.paths,
      (lo ≤ p.begin ∧ p.begin < hi) ∧ (lo ≤ p.dest ∧ p.dest < hi)) ∧
    (lo ≤ g.start ∧ g.start < hi) ∧ (lo ≤ g.finish ∧ g.finish < hi) := by
  induction h with
  | basis c lo =>
    refine ⟨?_, ?_, ?_⟩
    · intro p hp
      simp only [basis, List.mem_singleton] at hp
      subst hp
      refine ⟨⟨?_, ?_⟩, ?_, ?_⟩ <;> simp [basis]
    · simp [basis]
    · simp [basis]
  | @or lo m k g1 g2 h1 h2 ih1 ih2 =>
    have l2 := produced_lt h2
    obtain ⟨hp1, hs1, hf1⟩ := ih1
    obtain ⟨hp2, hs2, hf2⟩ := ih2
    refine ⟨?_, ?_, ?_⟩
    · intro p hp
      simp only [induct_or, List.mem_append, List.mem_cons,
        List.not_mem_nil, or_false] at hp
      rcases hp with (hp | hp) | rfl | rfl | rfl | rfl
      · have := hp1 p hp; omega
      · have := hp2 p hp; omega
      all_goals refine ⟨⟨?_, ?_⟩, ?_, ?_⟩
      all_goals try simp only [induct_or]
      all_goals omega
    · simp only [induct_or]; omega
    · simp only [induct_or]; omega
  | @cat lo m k g1 g2 h1 h2 ih1 ih2 =>
    have l2 := produced_lt h2
    obtain ⟨hp1, hs1, hf1⟩ := ih1
    obtain ⟨hp2, hs2, hf2⟩ := ih2
    refine ⟨?_, ?_, ?_⟩
    · intro p hp
      simp only [induct_cat, GraphT.alter_init_state, List.mem_append,
        List.mem_map] at hp
      rcases hp with hp | ⟨q, hq, rfl⟩
      · have := hp1 p hp; omega
      · have := hp2 q hq
        by_cases hb : q.begin = g2.start
        · simp only [if_pos hb]
          refine ⟨⟨?_, ?_⟩, ?_, ?_⟩ <;> omega
        · by_cases hd : q.dest = g2.start
          · simp only [if_neg hb, if_pos hd]
            refine ⟨⟨?_, ?_⟩, ?_, ?_⟩ <;> omega
          · simp only [if_neg hb, if_neg hd]
            omega
    · simp only [induct_cat]; omega
    · simp only [induct_cat, GraphT.alter_init_state]; omega
  | @star lo m g h ih =>
    obtain ⟨hp, hs, hf⟩ := ih
    refine ⟨?_, ?_, ?_⟩
    · intro p hmem
      simp only [induct_star, List.mem_append, List.mem_cons,
        List.not_mem_nil, or_false] at hmem
      rcases hmem with hmem | rfl | rfl | rfl | rfl
      · have := hp p hmem; omega
      all_goals refine ⟨⟨?_, ?_⟩, ?_, ?_⟩
      all_goals try simp only [induct_star]
      all_goals omega
    · simp only [induct_star]; omega
    · simp only [induct_star]; omega

/-- A produced graph never has its start equal to its finish. -/
theorem produced_start_ne_finish {lo hi : Nat} {g : GraphT}
    (h : Produced lo hi g) : g.start ≠ g.finish := by
  induction h with
  | basis c lo => simp [basis]
  | @or lo m k g1 g2 _ _ _ _ => simp [induct_or]
  | @star lo m g _ _ => simp [induct_star]
  | @cat lo m k g1 g2 h1 h2 _ _ =>
    have b1 := produced_bounded h1
    have b2 := produced_bounded h2
    have l2 := produced_lt h2
    have hx := b1.2.1.2
    have hy := b2.2.2.1
    simp only [induct_cat, GraphT.alter_init_state]
    intro hc
    omega

/-- C10: in every graph returned by the four Thompson constructors, no
path ends at the graph's start and no path begins at the graph's finish;
this is the invariant that makes `alter_init_state`'s begin-first
(`elif`) rewiring in `induct_cat` correct. -/
theorem produced_no_back_edges {lo hi : Nat} {g : GraphT}
    (h : Produced lo hi g) :
    ∀ p ∈ g.paths, p.dest ≠ g.start ∧ p.begin ≠ g.finish := by
  induction h with
  | basis c lo =>
    intro p hp
    simp only [basis, List.mem_singleton] at hp
    subst hp
    simp [basis]
  | @or lo m k g1 g2 h1 h2 ih1 ih2 =>
    have l2 := produced_lt h2
    have b1 := produced_bounded h1
    have b2 := produced_bounded h2
    intro p hp
    simp only [induct_or, List.mem_append, List.mem_cons,
      List.not_mem_nil, or_false] at hp
    rcases hp with (hp | hp) | rfl | rfl | rfl | rfl
    · have := b1.1 p hp
      constructor <;> simp only [induct_or] <;> omega
    · have := b2.1 p hp
      constructor <;> simp only [induct_or] <;> omega
    · have := b1.2.1
      constructor <;> simp only [induct_or] <;> omega
    · have := b2.2.1
      constructor <;> simp only [induct_or] <;> omega
    · have := b1.2.2
      constructor <;> simp only [induct_or] <;> omega
    · have := b2.2.2
      constructor <;> simp only [induct_or] <;> omega
  | @cat lo m k g1 g2 h1 h2 ih1 ih2 =>
    have l2 := produced_lt h2
    have b1 := produced_bounded h1
    have b2 := produced_bounded h2
    have ne1 := produced_start_ne_finish h1
    intro p hp
    simp only [induct_cat, GraphT.alter_init_state, List.mem_append,
      List.mem_map] at hp
    rcases hp with hp | ⟨q, hq, rfl⟩
    · have hb := b1.1 p hp
      have hih := ih1 p hp
      have hf2 := b2.2.2.1
      constructor
      · simpa only [induct_cat] using hih.1
      · simp only [induct_cat, GraphT.alter_init_state]
        omega
    · have hbq := b2.1 q hq
      have hihq := ih2 q hq
      have hs1b := b1.2.1
      have hf1b := b1.2.2
      have hf2 := b2.2.2.1
      by_cases hb : q.begin = g2.start
      · simp only [if_pos hb]
        constructor
        · simp only [induct_cat]
          omega
        · simp only [induct_cat, GraphT.alter_init_state]
          omega
      · by_cases hd : q.dest = g2.start
        · simp only [if_neg hb, if_pos hd]
          constructor
          · simp only [induct_cat]
            intro hc
            exact ne1 hc.symm
          · simp only [induct_cat, GraphT.alter_init_state]
            exact hihq.2
        · simp only [if_neg hb, if_neg hd]
          constructor
          · simp only [induct_cat]
            omega
          · simp only [induct_cat, GraphT.alter_init_state]
            exact hihq.2
  | @star lo m g h ih =>
    have b := produced_bounded h
    intro p hp
    simp only [induct_star, List.mem_append, List.mem_cons,
      List.not_mem_nil, or_false] at hp
    rcases hp with hp | rfl | rfl | rfl | rfl
    · have := b.1 p hp
      constructor <;> simp only [induct_star] <;> omega
    · have := b.2.1
      constructor <;> simp only [induct_star] <;> omega
    · constructor <;> simp only [induct_star] <;> omega
    · have := b.2.2
      constructor <;> simp only [induct_star] <;> omega
    · have h1 := b.2.1
      have h2 := b.2.2
      constructor <;> simp only [induct_star] <;> omega

/-- Witness for C10 at the basis machine for letter 'a'. -/
theorem produced_no_back_edges_witness :
    ((⟨0, 1, 'a'⟩ : PathT) ∈ (basis 'a' 0 1).paths) ∧
      ((⟨0, 1, 'a'⟩ : PathT).dest ≠ (basis 'a' 0 1).start ∧
       (⟨0, 1, 'a'⟩ : PathT).begin ≠ (basis 'a' 0 1).finish) :=
  ⟨by decide, produced_no_back_edges (Produced.basis 'a' 0) _ (by decide)⟩

-- ===== Simulation lemmas for the star construction =====

/-- Reachability only grows when paths are added. -/
theorem reach_mono {P Q : List PathT} (hsub : ∀ p ∈ P, p ∈ Q) {a x : Nat}
    (h : Reach P a x) : Reach Q a x := by
  refine Relation.ReflTransGen.mono ?_ h
  rintro u v ⟨p, hp, h1, h2, h3⟩
  exact ⟨p, hsub p hp, h1, h2, h3⟩

/-- Membership in the letter-step target set of `step_by`. -/
theorem mem_letterTargets {P : List PathT} {cur : Finset Nat} {c : Char}
    {x : Nat} :
    x ∈ letterTargets P cur c ↔
      ∃ p ∈ P, p.begin ∈ cur ∧ p.label = c ∧ p.dest = x := by
  simp only [letterTargets, List.mem_toFinset, List.mem_map, List.mem_filter,
    Bool.and_eq_true, decide_eq_true_eq, beq_iff_eq]
  constructor
  · rintro ⟨p, ⟨hp, hb, hl⟩, hd⟩
    exact ⟨p, hp, hb, hl, hd⟩
  · rintro ⟨p, hp, hb, hl, hd⟩
    exact ⟨p, ⟨hp, hb, hl⟩, hd⟩

/-- Letter-step targets only grow with paths and frontier. -/
theorem letterTargets_mono {P Q : List PathT} {cur cur' : Finset Nat}
    {c : Char} (hP : ∀ p ∈ P, p ∈ Q) (hc : cur ⊆ cur') :
    letterTargets P cur c ⊆ letterTargets Q cur' c := by
  intro x hx
  rcases mem_letterTargets.1 hx with ⟨p, hp, hb, hl, hd⟩
  exact mem_letterTargets.2 ⟨p, hP p hp, hc hb, hl, hd⟩

/-- A successful `step_by` is simulated in any larger machine. -/
theorem step_by_mono {P Q : List PathT} {cur cur' D : Finset Nat} {c : Char}
    (hP : ∀ p ∈ P, p ∈ Q) (hc : cur ⊆ cur')
    (h : step_by P cur c = some D) :
    ∃ D', step_by Q cur' c = some D' ∧ D ⊆ D' := by
  have htne : letterTargets P cur c ≠ ∅ := by
    intro hempty
    simp [step_by, e_closure, hempty] at h
  have htne' : letterTargets Q cur' c ≠ ∅ := by
    intro hempty
    rcases Finset.nonempty_iff_ne_empty.2 htne with ⟨a, ha⟩
    have := letterTargets_mono hP hc ha
    rw [hempty] at this
    exact absurd this (Finset.not_mem_empty a)
  have hD : D = eClosAux P (fuelOf P) (letterTargets P cur c) := by
    simp [step_by, e_closure, htne] at h
    exact h.symm
  refine ⟨eClosAux Q (fuelOf Q) (letterTargets Q cur' c), ?_, ?_⟩
  · simp [step_by, e_closure, htne']
  · subst hD
    intro x hx
    rcases (mem_eClos_iff P _).1 hx with ⟨a, ha, hr⟩
    exact (mem_eClos_iff Q _).2
      ⟨a, letterTargets_mono hP hc ha, reach_mono hP hr⟩

/-- A successful letter run is simulated in any larger machine. -/
theorem runSteps_mono {P Q : List PathT} (hP : ∀ p ∈ P, p ∈ Q) :
    ∀ (s : List Char) (cur cur' D : Finset Nat), cur ⊆ cur' →
      runSteps P cur s = some D →
      ∃ D', runSteps Q cur' s = some D' ∧ D ⊆ D' := by
  intro s
  induction s with
  | nil =>
    intro cur cur' D hc h
    simp only [runSteps, Option.some.injEq] at h
    exact ⟨cur', rfl, h ▸ hc⟩
  | cons c rest ih =>
    intro cur cur' D hc h
    simp only [runSteps] at h ⊢
    cases hs : step_by P cur c with
    | none => rw [hs] at h; exact absurd h (by simp)
    | some mid =>
      rw [hs] at h
      rcases step_by_mono hP hc hs with ⟨mid', hs', hmid⟩
      rw [hs']
      exact ih mid mid' D hmid h

/-- Step results are ε-closed. -/
theorem step_by_closed {P : List PathT} {cur D : Finset Nat} {c : Char}
    (h : step_by P cur c = some D) : EpsClosed P D := by
  have htne : letterTargets P cur c ≠ ∅ := by
    intro hempty
    simp [step_by, e_closure, hempty] at h
  have hD : D = eClosAux P (fuelOf P) (letterTargets P cur c) := by
    simp [step_by, e_closure, htne] at h
    exact h.symm
  subst hD
  exact eClos_closed P _

/-- Run results stay ε-closed when the initial frontier is. -/
theorem runSteps_closed {P : List PathT} :
    ∀ (s : List Char) (cur D : Finset Nat), EpsClosed P cur →
      runSteps P cur s = some D → EpsClosed P D := by
  intro s
  induction s with
  | nil =>
    intro cur D hcl h
    simp only [runSteps, Option.some.injEq] at h
    exact h ▸ hcl
  | cons c rest ih =>
    intro cur D hcl h
    simp only [runSteps] at h
    cases hs : step_by P cur c with
    | none => rw [hs] at h; exact absurd h (by simp)
    | some mid =>
      rw [hs] at h
      exact ih mid D (step_by_closed hs) h

/-- Unfolding of a successful `match`. -/
theorem matchM_fst_true_iff (M : MachineT) (s : List Char) :
    (matchM M s).1 = true ↔
      ∃ D, runSteps M.paths M.current s = some D ∧ M.finish ∈ D := by
  cases h : runSteps M.paths M.current s with
  | none => simp [matchM, h]
  | some D => simp [matchM, h]

/-- The inner graph's paths sit inside the star graph's paths. -/
theorem star_paths_sub (G : GraphT) (i f : Nat) :
    ∀ p ∈ G.paths, p ∈ (induct_star G i f).paths := by
  intro p hp
  simp only [induct_star, List.mem_append]
  exact Or.inl hp

/-- Running one inner-accepted word from a frontier that covers the star
machine's start closure preserves the star invariant: the new finish is
reached, the inner start's closure is covered again, and the frontier
stays ε-closed. -/
theorem star_word (G : GraphT) (i f : Nat) (cur : Finset Nat)
    (hfin : f ∈ cur)
    (hreach : ∀ x, Reach (induct_star G i f).paths G.start x → x ∈ cur)
    (hcl : EpsClosed (induct_star G i f).paths cur)
    (s : List Char) (hmatch : (matchM (mkMachine G) s).1 = true) :
    ∃ cur', runSteps (induct_star G i f).paths cur s = some cur' ∧
      (f ∈ cur' ∧
       (∀ x, Reach (induct_star G i f).paths G.start x → x ∈ cur') ∧
       EpsClosed (induct_star G i f).paths cur') := by
  rcases (matchM_fst_true_iff _ _).1 hmatch with ⟨D, hrun, hfinD⟩
  have hsubP := star_paths_sub G i f
  have hcur0 : (mkMachine G).current ⊆ cur := by
    intro x hx
    rcases (mem_eClos_iff G.paths {G.start}).1 hx with ⟨a, ha, hr⟩
    rw [Finset.mem_singleton] at ha
    subst ha
    exact hreach x (reach_mono hsubP hr)
  rcases runSteps_mono hsubP s _ cur D hcur0 hrun with ⟨D', hrun', hDD⟩
  have hGfin : G.finish ∈ D' := hDD hfinD
  have hcl' : EpsClosed (induct_star G i f).paths D' :=
    runSteps_closed s cur D' hcl hrun'
  have e1 : epsEdge (induct_star G i f).paths G.finish f :=
    ⟨⟨G.finish, f, epsilon⟩, by simp [induct_star], rfl, rfl, rfl⟩
  have e2 : epsEdge (induct_star G i f).paths G.finish G.start :=
    ⟨⟨G.finish, G.start, epsilon⟩, by simp [induct_star], rfl, rfl, rfl⟩
  refine ⟨D', hrun', ?_, ?_, hcl'⟩
  · exact hcl' G.finish hGfin f (Relation.ReflTransGen.single e1)
  · intro x hx
    exact hcl' G.finish hGfin x ((Relation.ReflTransGen.single e2).trans hx)

/-- Iterating `star_word` over a list of inner-accepted words. -/
theorem star_words (G : GraphT) (i f : Nat) :
    ∀ (l : List (List Char)) (cur : Finset Nat),
      f ∈ cur →
      (∀ x, Reach (induct_star G i f).paths G.start x → x ∈ cur) →
      EpsClosed (induct_star G i f).paths cur →
      (∀ s ∈ l, (matchM (mkMachine G) s).1 = true) →
      ∃ cur', runSteps (induct_star G i f).paths cur l.flatten = some cur' ∧
        f ∈ cur' := by
  intro l
  induction l with
  | nil =>
    intro cur hfin _ _ _
    exact ⟨cur, rfl, hfin⟩
  | cons s rest ih =>
    intro cur hfin hreach hcl hl
    rcases star_word G i f cur hfin hreach hcl s
        (hl s (List.mem_cons_self s rest)) with ⟨cur1, hrun1, h1, h2, h3⟩
    rcases ih cur1 h1 h2 h3
        (fun t ht => hl t (List.mem_cons_of_mem s ht)) with ⟨cur2, hrun2, hfin2⟩
    refine ⟨cur2, ?_, hfin2⟩
    rw [List.flatten_cons, runSteps_append, hrun1]
    exact hrun2

/-- C5: for every graph produced by the Thompson constructors, the
machine built from `star(G)` (with the two fresh states the constructor
allocates) matches the empty string, and matches every finite
concatenation of strings each individually matched by the machine
built from `G`. -/
theorem star_matches_empty_and_concats (lo hi : Nat) (G : GraphT)
    (_hG : Produced lo hi G) (l : List (List Char))
    (hl : ∀ s ∈ l, (matchM (mkMachine G) s).1 = true) :
    (matchM (mkMachine (induct_star G hi (hi + 1))) []).1 = true ∧
      (matchM (mkMachine (induct_star G hi (hi + 1))) l.flatten).1 = true := by
  have e_if : epsEdge (induct_star G hi (hi + 1)).paths hi (hi + 1) :=
    ⟨⟨hi, hi + 1, epsilon⟩, by simp [induct_star], rfl, rfl, rfl⟩
  have e_is : epsEdge (induct_star G hi (hi + 1)).paths hi G.start :=
    ⟨⟨hi, G.start, epsilon⟩, by simp [induct_star], rfl, rfl, rfl⟩
  have hcur : (mkMachine (induct_star G hi (hi + 1))).current =
      eClosAux (induct_star G hi (hi + 1)).paths
        (fuelOf (induct_star G hi (hi + 1)).paths) {hi} := rfl
  have hfin0 : (hi + 1) ∈ (mkMachine (induct_star G hi (hi + 1))).current := by
    rw [hcur]
    exact (mem_eClos_iff _ _).2
      ⟨hi, Finset.mem_singleton_self hi, Relation.ReflTransGen.single e_if⟩
  have hreach0 : ∀ x, Reach (induct_star G hi (hi + 1)).paths G.start x →
      x ∈ (mkMachine (induct_star G hi (hi + 1))).current := by
    intro x hx
    rw [hcur]
    exact (mem_eClos_iff _ _).2
      ⟨hi, Finset.mem_singleton_self hi, Relation.ReflTransGen.head e_is hx⟩
  have hcl0 : EpsClosed (induct_star G hi (hi + 1)).paths
      (mkMachine (induct_star G hi (hi + 1))).current := by
    rw [hcur]
    exact eClos_closed _ _
  constructor
  · exact (matchM_fst_true_iff _ _).2 ⟨_, rfl, hfin0⟩
  · rcases star_words G hi (hi + 1) l _ hfin0 hreach0 hcl0 hl with
      ⟨cur', hrun, hfin'⟩
    exact (matchM_fst_true_iff _ _).2 ⟨cur', hrun, hfin'⟩

/-- Witness for C5: the star of the one-letter machine for 'a' accepts
the empty string and "aa". -/
theorem star_matches_empty_and_concats_witness :
    (∀ s ∈ [['a'], ['a']], (matchM (mkMachine (basis 'a' 0 1)) s).1 = true) ∧
      ((matchM (mkMachine (induct_star (basis 'a' 0 1) 2 3)) []).1 = true ∧
        (matchM (mkMachine (induct_star (basis 'a' 0 1) 2 3))
          (List.flatten [['a'], ['a']])).1 = true) :=
  ⟨by decide,
   star_matches_empty_and_concats 0 2 (basis 'a' 0 1) (Produced.basis 'a' 0)
     [['a'], ['a']] (by decide)⟩

-- ===== Pinning the computed generator outputs =====

set_option maxRecDepth 4000 in
/-- The embedded `closure_groups()` on the regex grammar evaluates to
the pinned 22-state collection. -/
theorem closure_groups_regex_eval :
    closure_groups regexSpec = regexGroupsLit := by rfl

set_option maxRecDepth 4000 in
/-- The embedded `generate_syntax_table()` on the regex grammar
evaluates to the pinned table. -/
theorem generate_syntax_table_regex_eval :
    generate_syntax_table regexSpec = regexTableLit := by
  show get_states_map regexSpec (closure_groups regexSpec) = regexTableLit
  rw [closure_groups_regex_eval]
  rfl

set_option maxRecDepth 4000 in
/-- C2: in both canonical-collection constructions, for every collected
item set `I` and every symbol `X` with `GOTO(I, X)` non-empty and
value-equal to a set present in the collection, the transition is
recorded in `I.goto` with that set's label — the `if go_label:`
truthiness test never drops a transition, because the label-0 set
(whose items all carry dot position 0) is never value-equal to any
non-empty GOTO result (whose kernel items carry dot position ≥ 1). -/
theorem goto_transitions_recorded :
    (∀ c ∈ closure_groups regexSpec, ∀ X ∈ regexSpec.all_symbols,
        (lrGoto regexSpec c.sets X).isEmpty = false →
        ∀ d ∈ closure_groups regexSpec,
          sameItems d.sets (lrGoto regexSpec c.sets X) = true →
            lookupGoto c.goto X = some d.label) ∧
    (∀ c ∈ closure_groups parserSpec, ∀ X ∈ parserSpec.all_symbols,
        (lrGoto parserSpec c.sets X).isEmpty = false →
        ∀ d ∈ closure_groups parserSpec,
          sameItems d.sets (lrGoto parserSpec c.sets X) = true →
            lookupGoto c.goto X = some d.label) := by
  constructor
  · rw [closure_groups_regex_eval]
    decide
  · decide

-- ===== C1: table emission on conflicting cells =====

/-- Counterexample to C1: on an item set where the shift rule and the
reduce rule target the same cell (state 0, symbol 'a'), table emission
does not fail — the embedded `get_states_map`, a total function
mirroring a source that contains no raise, returns an ordinary table —
and the `"s1"` the shift loop wrote is silently overwritten by `"r3"`. -/
theorem conflict_cell_overwritten_not_error :
    cellConflict regexSpec conflictClosure 'a' = true ∧
    srowShift regexSpec conflictClosure (srowInit regexSpec) =
      [".", ".", ".", ".", "s1", ".", ".", ".", ".", "."] ∧
    get_states_map regexSpec [conflictClosure] =
      [[".", ".", ".", ".", "r3", ".", ".", ".", ".", "."]] := by
  refine ⟨by decide, by decide, by decide⟩

/-- Generic length preservation for row-writing folds. -/
theorem foldl_length_inv {β : Type} (f : List String → β → List String)
    (h : ∀ r b, (f r b).length = r.length) :
    ∀ (l : List β) (r : List String), (l.foldl f r).length = r.length := by
  intro l
  induction l with
  | nil => intro r; rfl
  | cons b rest ih =>
    intro r
    simp only [List.foldl_cons]
    rw [ih, h]

/-- The shift/goto loop never changes the row length. -/
theorem srowShift_length {α : Type} [DecidableEq α] (sp : LRSpec α)
    (c : ClosureC α) (row : List String) :
    (srowShift sp c row).length = row.length := by
  unfold srowShift
  apply foldl_length_inv
  intro r ig
  apply foldl_length_inv
  intro r' it
  split
  · split
    · exact List.length_set r' _ _
    · split
      · exact List.length_set r' _ _
      · rfl
  · rfl

/-- One column pass of the reduce loop leaves other columns alone. -/
theorem srowReduceInner_ne {α : Type} [DecidableEq α] (sp : LRSpec α)
    (rpos : Nat) (Y : α) (k : Nat) (hk : rpos ≠ k) :
    ∀ (l : List (Item α)) (row : List String),
      (l.foldl (fun row it =>
        if it.pos = it.body.length ∧ it.follow = Y ∧ it.sym ≠ sp.startSym
        then row.set rpos ("r" ++ toString (grammarIndex sp it.sym it.body))
        else row) row)[k]? = row[k]? := by
  intro l
  induction l with
  | nil => intro row; rfl
  | cons it rest ih =>
    intro row
    simp only [List.foldl_cons]
    rw [ih]
    split
    · exact List.getElem?_set_ne hk
    · rfl

/-- One column pass leaves the row length unchanged. -/
theorem srowReduceInner_length {α : Type} [DecidableEq α] (sp : LRSpec α)
    (rpos : Nat) (Y : α) (l : List (Item α)) (row : List String) :
    (l.foldl (fun row it =>
      if it.pos = it.body.length ∧ it.follow = Y ∧ it.sym ≠ sp.startSym
      then row.set rpos ("r" ++ toString (grammarIndex sp it.sym it.body))
      else row) row).length = row.length := by
  apply foldl_length_inv
  intro r it
  split
  · exact List.length_set r _ _
  · rfl

/-- A column pass with at least one matching complete item, all of them
writing the same reduce action, ends with that action in the cell. -/
theorem srowReduceInner_val {α : Type} [DecidableEq α] (sp : LRSpec α)
    (rpos : Nat) (Y : α) (V : String) :
    ∀ (l : List (Item α)) (row : List String), rpos < row.length →
      ((∃ it ∈ l, it.pos = it.body.length ∧ it.follow = Y ∧
          it.sym ≠ sp.startSym) ∨ row[rpos]? = some V) →
      (∀ it ∈ l, it.pos = it.body.length → it.follow = Y →
        it.sym ≠ sp.startSym →
        "r" ++ toString (grammarIndex sp it.sym it.body) = V) →
      (l.foldl (fun row it =>
        if it.pos = it.body.length ∧ it.follow = Y ∧ it.sym ≠ sp.startSym
        then row.set rpos ("r" ++ toString (grammarIndex sp it.sym it.body))
        else row) row)[rpos]? = some V := by
  intro l
  induction l with
  | nil =>
    intro row _ hd _
    rcases hd with ⟨it, hin, _⟩ | hv
    · exact absurd hin (List.not_mem_nil it)
    · exact hv
  | cons it rest ih =>
    intro row hlen hd hall
    simp only [List.foldl_cons]
    by_cases hP : it.pos = it.body.length ∧ it.follow = Y ∧ it.sym ≠ sp.startSym
    · rw [if_pos hP]
      apply ih
      · rw [List.length_set]; exact hlen
      · right
        have hv := hall it (List.mem_cons_self it rest) hP.1 hP.2.1 hP.2.2
        rw [List.getElem?_set_self hlen]
        exact congrArg some hv
      · intro x hx h1 h2 h3
        exact hall x (List.mem_cons_of_mem it hx) h1 h2 h3
    · rw [if_neg hP]
      apply ih row hlen
      · rcases hd with ⟨x, hx, hPx⟩ | hv
        · rcases List.mem_cons.1 hx with rfl | hx'
          · exact absurd hPx hP
          · exact Or.inl ⟨x, hx', hPx⟩
        · exact Or.inr hv
      · intro x hx h1 h2 h3
        exact hall x (List.mem_cons_of_mem it hx) h1 h2 h3

/-- The full reduce loop over an explicit column list. -/
theorem srowReduceAux {α : Type} [DecidableEq α] (sp : LRSpec α)
    (c : ClosureC α) (j : Nat) (X : α) (V : String)
    (hex : ∃ it ∈ c.sets, it.pos = it.body.length ∧ it.follow = X ∧
      it.sym ≠ sp.startSym)
    (hall : ∀ it ∈ c.sets, it.pos = it.body.length → it.follow = X →
      it.sym ≠ sp.startSym →
      "r" ++ toString (grammarIndex sp it.sym it.body) = V) :
    ∀ (cols : List (Nat × α)) (row : List String), j < row.length →
      (∀ pi ∈ cols, pi.1 = j → pi.2 = X) →
      ((j, X) ∈ cols ∨ row[j]? = some V) →
      (cols.foldl (fun row pi =>
        c.sets.foldl (fun row it =>
          if it.pos = it.body.length ∧ it.follow = pi.2 ∧
            it.sym ≠ sp.startSym
          then row.set pi.1 ("r" ++ toString (grammarIndex sp it.sym it.body))
          else row) row) row)[j]? = some V := by
  intro cols
  induction cols with
  | nil =>
    intro row _ _ hd
    rcases hd with hmem | hv
    · exact absurd hmem (List.not_mem_nil _)
    · exact hv
  | cons pi rest ih =>
    obtain ⟨p1, p2⟩ := pi
    intro row hlen hcols hd
    simp only [List.foldl_cons]
    by_cases hpi : p1 = j
    · subst hpi
      have hX : p2 = X := hcols (p1, p2) (List.mem_cons_self _ _) rfl
      subst hX
      apply ih
      · rw [srowReduceInner_length]; exact hlen
      · intro q hq h
        exact hcols q (List.mem_cons_of_mem _ hq) h
      · right
        exact srowReduceInner_val sp p1 p2 V c.sets row hlen (Or.inl hex) hall
    · apply ih
      · rw [srowReduceInner_length]; exact hlen
      · intro q hq h
        exact hcols q (List.mem_cons_of_mem _ hq) h
      · rcases hd with hmem | hv
        · rcases List.mem_cons.1 hmem with heq | hmem'
          · exact absurd (congrArg Prod.fst heq).symm hpi
          · exact Or.inl hmem'
        · right
          rw [srowReduceInner_ne sp p1 p2 j hpi]
          exact hv

/-- C1 (amended): when two emission rules target the same cell the
generator does not fail; the later rule wins.  Concretely: a cell whose
column carries a complete-item reduce rule (all matching items denoting
the same production) and is not the target of the final accept write
ends up holding that reduce action, regardless of anything the earlier
shift/goto loop wrote into it. -/
theorem reduce_rule_overwrites {α : Type} [DecidableEq α] (sp : LRSpec α)
    (c : ClosureC α) (j : Nat) (X : α) (it0 : Item α)
    (hj : sp.all_symbols[j]? = some X)
    (hit0 : it0 ∈ c.sets)
    (hm : it0.pos = it0.body.length ∧ it0.follow = X ∧ it0.sym ≠ sp.startSym)
    (huniq : ∀ it ∈ c.sets, it.pos = it.body.length → it.follow = X →
      it.sym ≠ sp.startSym →
      grammarIndex sp it.sym it.body = grammarIndex sp it0.sym it0.body)
    (hacc : Item.mk sp.startSym sp.startBody 1 sp.followInit ∈ c.sets →
      X ≠ sp.followInit) :
    (get_state_map sp c)[j]? =
      some ("r" ++ toString (grammarIndex sp it0.sym it0.body)) := by
  have hjlen : j < sp.all_symbols.length := by
    rcases List.getElem?_eq_some_iff.1 hj with ⟨h, _⟩
    exact h
  have hrowlen : (srowShift sp c (srowInit sp)).length =
      sp.all_symbols.length := by
    rw [srowShift_length]
    simp [srowInit]
  have h2 : (srowReduce sp c (srowShift sp c (srowInit sp)))[j]? =
      some ("r" ++ toString (grammarIndex sp it0.sym it0.body)) := by
    unfold srowReduce
    apply srowReduceAux sp c j X _
      ⟨it0, hit0, hm⟩
      (fun it hin h1 h2 h3 => by rw [huniq it hin h1 h2 h3])
    · rw [hrowlen]; exact hjlen
    · intro pi hpi h
      have := List.mem_enum_iff_getElem?.1 hpi
      rw [h] at this
      rw [hj] at this
      exact (Option.some.injEq _ _ ▸ this).symm
    · left
      exact List.mem_enum_iff_getElem?.2 hj
  show (srowAccept sp c (srowReduce sp c (srowShift sp c (srowInit sp))))[j]? = _
  unfold srowAccept
  split
  · rename_i hin
    have hXne : X ≠ sp.followInit := hacc hin
    rw [List.getElem?_set_ne]
    · exact h2
    · intro heq
      by_cases hmem : sp.followInit ∈ sp.all_symbols
      · have hlt : List.indexOf sp.followInit sp.all_symbols <
            sp.all_symbols.length := List.indexOf_lt_length.2 hmem
        have h1 : sp.all_symbols[List.indexOf sp.followInit sp.all_symbols]? =
            some sp.followInit := by
          rw [List.getElem?_eq_getElem hlt, List.getElem_indexOf hlt]
        rw [heq, hj] at h1
        exact hXne (Option.some.injEq _ _ ▸ h1)
      · have : List.indexOf sp.followInit sp.all_symbols =
            sp.all_symbols.length := List.indexOf_eq_length.2 hmem
        omega
  · exact h2

/-- Witness for the amended C1 at the synthetic conflicting state:
column 4 (symbol 'a') ends up holding the reduce action of production
`S -> D` even though the shift rule wrote `"s1"` there first. -/
theorem reduce_rule_overwrites_witness :
    (get_state_map regexSpec conflictClosure)[4]? =
      some ("r" ++ toString (grammarIndex regexSpec 'S' ['D'])) :=
  reduce_rule_overwrites regexSpec conflictClosure 4 'a'
    (Item.mk 'S' ['D'] 1 'a') (by decide) (by decide) (by decide)
    (by decide) (by decide)

/-- Witness for C2: state 0 of the regex collection has a non-empty
GOTO on '(' that is value-equal to the state labeled 1, and its
recorded transition carries exactly that label. -/
theorem goto_transitions_recorded_witness :
    ((lrGoto regexSpec (regexGroupsLit.getD 0 ⟨0, [], []⟩).sets '(').isEmpty
        = false) ∧
    lookupGoto (regexGroupsLit.getD 0 ⟨0, [], []⟩).goto '(' =
      some (regexGroupsLit.getD 1 ⟨0, [], []⟩).label :=
  ⟨by decide,
   goto_transitions_recorded.1 _
     (by rw [closure_groups_regex_eval]; decide) '(' (by decide) (by decide)
     _ (by rw [closure_groups_regex_eval]; decide) (by decide)⟩

-- ===== C3: what a reduction pops and pushes =====

/-- Counterexample to C3: production 1 (`S -> S|D`) has a body of three
symbols, yet its semantic action pops only two values (its template has
two placeholders) and pushes one: from a three-value stack it returns a
two-value stack, where popping three and pushing one would return one
value.  The driver really performs this reduction: compiling "a|a"
succeeds, with the two `basis` values as the only stack entries popped
by the `induct_or` action. -/
theorem reduce_pops_slots_not_body_length :
    (grammarR.getD 1 ('?', [])).2.length = 3 ∧
    reduceArgs 1 ["x", "y", "z"] = some ["x", "induct_or(y, z)"] ∧
    (["x", "induct_or(y, z)"] : List String).length ≠
      ["x", "y", "z"].length + 1 - (grammarR.getD 1 ('?', [])).2.length ∧
    regexCompile "a|a".toList =
      some ⟨[0, 3], [], "induct_or(basis(\"a\"), basis(\"a\"))"⟩ := by
  refine ⟨by decide, by decide, by decide, ?_⟩
  show parseLoop (generate_syntax_table regexSpec) 200 initCompState _ = _
  rw [generate_syntax_table_regex_eval]
  decide

/-- C3 (amended): every reduction pops exactly one value per
placeholder slot of its semantic template and pushes exactly one
result; the slot count equals the number of value-carrying symbols of
the body (the letter terminal 'a' and the non-terminals — the purely
syntactic tokens are never pushed at shift time), not the body length. -/
theorem reduce_pops_slots_pushes_one (p : Nat) (hp : p < 8)
    (stack : List String) (hlen : semanticSlots p ≤ stack.length) :
    (∃ res, reduceArgs p stack = some res ∧
      res.length + semanticSlots p = stack.length + 1) ∧
    semanticSlots p =
      ((grammarR.getD p ('?', [])).2.filter
        (fun y => y = 'a' ∨ y ∈ regexSpec.n_terminals)).length := by
  constructor
  · refine ⟨stack.take (stack.length - semanticSlots p) ++
      [renderSemantic p (stack.drop (stack.length - semanticSlots p))], ?_, ?_⟩
    · simp only [reduceArgs]
      rw [if_neg (by omega)]
    · have h1 : (stack.take (stack.length - semanticSlots p)).length =
          stack.length - semanticSlots p := by
        rw [List.length_take]
        omega
      simp only [List.length_append, List.length_singleton, h1]
      omega
  · interval_cases p <;> decide

/-- Witness for the amended C3 at production 1 and a three-value stack. -/
theorem reduce_pops_slots_pushes_one_witness :
    (1 < 8 ∧ semanticSlots 1 ≤ (["x", "y", "z"] : List String).length) ∧
    ((∃ res, reduceArgs 1 ["x", "y", "z"] = some res ∧
        res.length + semanticSlots 1 =
          (["x", "y", "z"] : List String).length + 1) ∧
      semanticSlots 1 =
        ((grammarR.getD 1 ('?', [])).2.filter
          (fun y => y = 'a' ∨ y ∈ regexSpec.n_terminals)).length) :=
  ⟨⟨by decide, by decide⟩,
   reduce_pops_slots_pushes_one 1 (by decide) ["x", "y", "z"] (by decide)⟩

-- ===== C4: the error cell in the regex LR driver =====

/-- C4: the table cell for state 0 and terminal ')' is the error cell
`"."`, and `RegexCompiler.ahead` fed that token RETURNS the compiler
state unchanged instead of failing: the if/elif chain has no else
branch, so the error cell is silently ignored (its sibling `SDT.ahead`
in parser.py raises SyntaxError in the same situation, which is what
the specification describes as ParseError). -/
theorem error_cell_silently_ignored :
    get_action (generate_syntax_table regexSpec) 0 ')' = "." ∧
    ahead (generate_syntax_table regexSpec) 100 initCompState ')' ")" =
      some initCompState := by
  constructor
  · show (((generate_syntax_table regexSpec).getD 0 []).getD _ _) = _
    rw [generate_syntax_table_regex_eval]
    decide
  · show ahead (generate_syntax_table regexSpec) 100 initCompState ')' ")" = _
    rw [generate_syntax_table_regex_eval]
    decide

-- ===== C8: FIRST of a terminal =====

/-- C8: in parser.py, `first` on the two-character terminal "if"
returns `set("if")` — the set of its characters {"i", "f"} — and not
the singleton {"if"} the specification promises. -/
theorem first_of_terminal_is_char_set :
    ("if" ∈ parserSpec.terminals) ∧
    lrFirst parserSpec (firstFuel parserSpec) "if" = ["i", "f"] ∧
    ("if" ∉ lrFirst parserSpec (firstFuel parserSpec) "if") := by
  refine ⟨by decide, by decide, by decide⟩
